import Mathlib

/-!
Verification development for the v8unpack-rs repository (crate v8unpack4rs).

The repository reads and writes the 1C v8 paged binary container format.
This file gives a shallow embedding of the core codec and of the unpack,
pipeline, pack and build operations, translated from the Rust sources:

- src/v8unpack4rs/src/container.rs   (FileHeader, BlockHeader, ElemAddr,
  V8Elem, V8File and their codecs)
- src/v8unpack4rs/src/parser/single.rs (sequential unpack operations)
- src/v8unpack4rs/src/parser/multi.rs  (pipelined unpack operations)
- src/v8unpack4rs/src/builder/mod.rs   (pack_from_folder, build_cf_file)

Modelling conventions.

Bytes are natural numbers below 256; files and in-memory buffers are lists
of bytes.  A seekable readable source (Rust Cursor or BufReader) is a pair
of a byte list and a position; reading clamps at the end of the data, as
Rust take(n).read_to_end does, and masks every byte read to the u8 range.
Fallible Rust functions returning Result are embedded as Except values over
an error type mirroring the crate error enum V8Error (payloads such as the
concrete io::Error or ParseIntError kind are collapsed, since the code never
inspects them).  u32 arithmetic wraps modulo 2^32 (as-casts truncate in all
Rust profiles; additions wrap in release builds).  The while-loop of
read_block_data can fail to terminate in Rust on crafted page chains, so its
embedding takes a fuel argument and returns a distinguished noFuel error
when the fuel runs out; a Rust panic (for example Vec::split_at out of
bounds, or the expect call in pack_from_folder) is embedded as the
distinguished panicked error.  The external inflate and deflate crates are
kept abstract: operations that call them take the corresponding function as
an explicit parameter.  A directory on disk is a list of (file name,
содержимое) pairs written in creation order, with file names as byte lists.
-/

deriving instance DecidableEq for Except

/-- Modulus used for u32 truncation and wrapping, 2^32. -/
def u32mod (x : Nat) : Nat := x % 4294967296

/-- Magic sentinel V8_MAGIC_NUMBER = 0x7fffffff from container.rs. -/
def V8_MAGIC_NUMBER : Nat := 2147483647

/-- Default page size V8_DEFAULT_PAGE_SIZE = 512 from container.rs. -/
def V8_DEFAULT_PAGE_SIZE : Nat := 512

/-- Error type mirroring the crate enum V8Error (error.rs), with payloads
collapsed; noFuel marks exhausted fuel (a diverging Rust loop) and panicked
marks a Rust panic. -/
inductive V8Error where
  | notV8File (offset : Nat)
  | ioError
  | fromUtf8Error
  | utf8Error
  | parseIntError
  | noFuel
  | panicked

deriving DecidableEq, Repr

/-- Seekable readable source: the byte data and the current read position. -/
structure Src where
  data : List Nat
  pos : Nat

deriving DecidableEq, Repr

/-- Read up to n bytes from the current position, advancing it, clamping at
the end of the data and masking each byte into the u8 range.  Embeds
src.take(n).read_to_end(buf). -/
def takeRead (n : Nat) (s : Src) : List Nat × Src :=
  let buf := ((s.data.drop s.pos).take n).map (· % 256)
  (buf, ⟨s.data, s.pos + buf.length⟩)

/-- Little-endian u32 from the first four bytes of a list. -/
def u32le (l : List Nat) : Nat :=
  l.getD 0 0 + l.getD 1 0 * 256 + l.getD 2 0 * 65536 + l.getD 3 0 * 16777216

/-- Little-endian 4-byte encoding of a u32 value. -/
def u32leBytes (v : Nat) : List Nat :=
  [v % 256, v / 256 % 256, v / 65536 % 256, v / 16777216 % 256]

/-- Lower-case hexadecimal digit of a value below 16, as an ASCII byte. -/
def hexDigit (d : Nat) : Nat := if d < 10 then 48 + d else 87 + d

/-- Eight lower-case hex ASCII digits of a u32 value; embeds the helper
convert in container.rs (format with 08x). -/
def convert (v : Nat) : List Nat :=
  [hexDigit (v / 268435456 % 16), hexDigit (v / 16777216 % 16),
   hexDigit (v / 1048576 % 16), hexDigit (v / 65536 % 16),
   hexDigit (v / 4096 % 16), hexDigit (v / 256 % 16),
   hexDigit (v / 16 % 16), hexDigit (v % 16)]

/-- Value of an ASCII character as a base-16 digit, as char::to_digit(16):
accepts 0-9, a-f and A-F. -/
def toDigit16 (c : Nat) : Option Nat :=
  if 48 ≤ c ∧ c ≤ 57 then some (c - 48)
  else if 97 ≤ c ∧ c ≤ 102 then some (c - 87)
  else if 65 ≤ c ∧ c ≤ 70 then some (c - 55)
  else none

/-- Digit-accumulation loop of u32::from_str_radix with radix 16: a
non-digit character or a u32 overflow is a parse error. -/
def fromStrRadix16Go : List Nat → Nat → Except V8Error Nat
  | [], acc => .ok acc
  | c :: cs, acc =>
    match toDigit16 c with
    | none => .error .parseIntError
    | some d =>
      if acc * 16 + d < 4294967296 then fromStrRadix16Go cs (acc * 16 + d)
      else .error .parseIntError

/-- Embeds u32::from_str_radix(s, 16) on a decoded character sequence: an
empty string is an error; a leading plus sign is allowed (a minus sign is
not a sign for an unsigned type and fails as a non-digit). -/
def fromStrRadix16 (chars : List Nat) : Except V8Error Nat :=
  match chars with
  | [] => .error .parseIntError
  | c :: cs =>
    let digits := if c = 43 then cs else c :: cs
    match digits with
    | [] => .error .parseIntError
    | _ => fromStrRadix16Go digits 0

/-- Continuation byte test for UTF-8 decoding. -/
def isCont (b : Nat) : Bool := 128 ≤ b && b ≤ 191

/-- Decoding of one multi-byte UTF-8 sequence: given a lead byte above the
ASCII range and the remaining input, return the scalar value and the rest of
the input, or none on malformed input, per the strict validation rules of
str::from_utf8 (no overlong encodings, no surrogates, nothing above
0x10FFFF). -/
def utf8Step (b0 : Nat) (rest : List Nat) : Option (Nat × List Nat) :=
  if 194 ≤ b0 ∧ b0 ≤ 223 then
    match rest with
    | b1 :: rest2 =>
      if isCont b1 then some ((b0 - 192) * 64 + (b1 - 128), rest2) else none
    | [] => none
  else if 224 ≤ b0 ∧ b0 ≤ 239 then
    match rest with
    | b1 :: b2 :: rest2 =>
      let okb1 :=
        if b0 = 224 then decide (160 ≤ b1 ∧ b1 ≤ 191)
        else if b0 = 237 then decide (128 ≤ b1 ∧ b1 ≤ 159)
        else isCont b1
      if okb1 && isCont b2 then
        some ((b0 - 224) * 4096 + (b1 - 128) * 64 + (b2 - 128), rest2)
      else none
    | _ => none
  else if 240 ≤ b0 ∧ b0 ≤ 244 then
    match rest with
    | b1 :: b2 :: b3 :: rest2 =>
      let okb1 :=
        if b0 = 240 then decide (144 ≤ b1 ∧ b1 ≤ 191)
        else if b0 = 244 then decide (128 ≤ b1 ∧ b1 ≤ 143)
        else isCont b1
      if okb1 && isCont b2 && isCont b3 then
        some ((b0 - 240) * 262144 + (b1 - 128) * 4096 + (b2 - 128) * 64 + (b3 - 128),
          rest2)
      else none
    | _ => none
  else none

/-- Structural worker for UTF-8 decoding: the fuel argument only bounds the
recursion depth and is immaterial whenever it is at least the input length
(utf8DecodeGo_fuel below); it keeps the definition kernel-reducible. -/
def utf8DecodeGo : Nat → List Nat → Option (List Nat)
  | _, [] => some []
  | 0, _ :: _ => none
  | fuel + 1, b0 :: rest =>
    if b0 ≤ 127 then (utf8DecodeGo fuel rest).map (b0 :: ·)
    else
      match utf8Step b0 rest with
      | none => none
      | some cr => (utf8DecodeGo fuel cr.2).map (cr.1 :: ·)

/-- Strict UTF-8 decoding of a byte list into Unicode scalar values, as
str::from_utf8 / String::from_utf8 validate: an ASCII byte stands alone,
anything else must start a valid multi-byte sequence. -/
def utf8Decode (l : List Nat) : Option (List Nat) :=
  utf8DecodeGo l.length l

/-- UTF-16LE byte encoding of a list of Unicode scalar values, as the
encoding crate UTF_16LE encoder used by V8Elem::set_name. -/
def utf16leBytes (chars : List Nat) : List Nat :=
  chars.flatMap fun c =>
    if c < 65536 then [c % 256, c / 256]
    else
      let cp := c - 65536
      let hi := 55296 + cp / 1024
      let lo := 56320 + cp % 1024
      [hi % 256, hi / 256, lo % 256, lo / 256]

/-- Root file header of the container (container.rs struct FileHeader):
four little-endian u32 fields. -/
structure FileHeader where
  next_page_addr : Nat
  page_size : Nat
  storage_ver : Nat
  reserved : Nat

deriving DecidableEq, Repr

namespace FileHeader

/-- FileHeader::SIZE = 16. -/
def SIZE : Nat := 16

/-- FileHeader::new, with reserved zeroed. -/
def new (next_page_addr page_size storage_ver : Nat) : FileHeader :=
  ⟨next_page_addr, page_size, storage_ver, 0⟩

/-- FileHeader::from_raw_parts: read 16 bytes (error when fewer are
available) and decode four little-endian u32 fields. -/
def from_raw_parts (s : Src) : Except V8Error (FileHeader × Src) :=
  let r := takeRead 16 s
  if r.1.length < 16 then .error .ioError
  else
    .ok (⟨u32le (r.1.take 4), u32le ((r.1.drop 4).take 4),
          u32le ((r.1.drop 8).take 4), u32le ((r.1.drop 12).take 4)⟩, r.2)

/-- FileHeader::into_bytes: four little-endian u32 fields. -/
def into_bytes (h : FileHeader) : List Nat :=
  u32leBytes h.next_page_addr ++ u32leBytes h.page_size ++
  u32leBytes h.storage_ver ++ u32leBytes h.reserved

end FileHeader

/-- Framed block header (container.rs struct BlockHeader): CR LF, three
8-byte hex fields separated by spaces, space, CR LF. -/
structure BlockHeader where
  eol_0d : Nat
  eol_0a : Nat
  data_size_hex : List Nat
  space1 : Nat
  page_size_hex : List Nat
  space2 : Nat
  next_page_addr_hex : List Nat
  space3 : Nat
  eol2_0d : Nat
  eol2_0a : Nat

deriving DecidableEq, Repr

namespace BlockHeader

/-- BlockHeader::SIZE = 31. -/
def SIZE : Nat := 31

/-- Default BlockHeader: canonical framing bytes, zeroed hex fields. -/
def dflt : BlockHeader :=
  ⟨13, 10, [0, 0, 0, 0, 0, 0, 0, 0], 32, [0, 0, 0, 0, 0, 0, 0, 0], 32,
   [0, 0, 0, 0, 0, 0, 0, 0], 32, 13, 10⟩

/-- BlockHeader::new: default framing with the three values rendered as
8-digit lower-case hex. -/
def new (data_size page_size next_page_addr : Nat) : BlockHeader :=
  { dflt with
    data_size_hex := convert data_size
    page_size_hex := convert page_size
    next_page_addr_hex := convert next_page_addr }

/-- BlockHeader::from_raw_parts: read 31 bytes (error when fewer are
available) and slice out the framing bytes and the three hex fields. -/
def from_raw_parts (s : Src) : Except V8Error (BlockHeader × Src) :=
  let r := takeRead 31 s
  if r.1.length < 31 then .error .ioError
  else
    .ok (⟨r.1.getD 0 0, r.1.getD 1 0, (r.1.drop 2).take 8, r.1.getD 10 0,
          (r.1.drop 11).take 8, r.1.getD 19 0, (r.1.drop 20).take 8,
          r.1.getD 28 0, r.1.getD 29 0, r.1.getD 30 0⟩, r.2)

/-- BlockHeader::is_correct: all framing and separator bytes are exact. -/
def is_correct (h : BlockHeader) : Bool :=
  h.eol_0d == 13 && h.eol_0a == 10 && h.space1 == 32 && h.space2 == 32 &&
  h.space3 == 32 && h.eol2_0d == 13 && h.eol2_0a == 10

/-- BlockHeader::get_u32: UTF-8-decode the field bytes (propagating a
Utf8Error) then parse as hex u32 (propagating a ParseIntError). -/
def get_u32 (value : List Nat) : Except V8Error Nat :=
  match utf8Decode value with
  | none => .error .utf8Error
  | some chars => fromStrRadix16 chars

/-- BlockHeader::get_data_size. -/
def get_data_size (h : BlockHeader) : Except V8Error Nat :=
  get_u32 h.data_size_hex

/-- BlockHeader::get_page_size. -/
def get_page_size (h : BlockHeader) : Except V8Error Nat :=
  get_u32 h.page_size_hex

/-- BlockHeader::get_next_page_addr. -/
def get_next_page_addr (h : BlockHeader) : Except V8Error Nat :=
  get_u32 h.next_page_addr_hex

/-- BlockHeader::into_bytes: framing, hex fields and separators in wire
order. -/
def into_bytes (h : BlockHeader) : List Nat :=
  h.eol_0d :: h.eol_0a :: (h.data_size_hex ++ h.space1 :: (h.page_size_hex ++
    h.space2 :: (h.next_page_addr_hex ++ [h.space3, h.eol2_0d, h.eol2_0a])))

end BlockHeader

/-- Table-of-contents record (container.rs struct ElemAddr): offsets of the
header block and of the data block, and a trailing sentinel field. -/
structure ElemAddr where
  elem_header_addr : Nat
  elem_data_addr : Nat
  fffffff : Nat

deriving DecidableEq, Repr

namespace ElemAddr

/-- ElemAddr::SIZE = 12. -/
def SIZE : Nat := 12

/-- ElemAddr::new: note the argument order of the source, data address
first, and the sentinel always set to the magic number. -/
def new (elem_data_addr elem_header_addr : Nat) : ElemAddr :=
  ⟨elem_header_addr, elem_data_addr, V8_MAGIC_NUMBER⟩

/-- ElemAddr::from_raw_parts: three little-endian u32 reads, each failing
when fewer than four bytes remain. -/
def from_raw_parts (s : Src) : Except V8Error (ElemAddr × Src) :=
  let r1 := takeRead 4 s
  if r1.1.length < 4 then .error .ioError
  else
    let r2 := takeRead 4 r1.2
    if r2.1.length < 4 then .error .ioError
    else
      let r3 := takeRead 4 r2.2
      if r3.1.length < 4 then .error .ioError
      else .ok (⟨u32le r1.1, u32le r2.1, u32le r3.1⟩, r3.2)

/-- ElemAddr::into_bytes: three little-endian u32 fields in field order. -/
def into_bytes (a : ElemAddr) : List Nat :=
  u32leBytes a.elem_header_addr ++ u32leBytes a.elem_data_addr ++
  u32leBytes a.fffffff

end ElemAddr

/-- Loop body of read_block_data (parser/single.rs): while fewer than
data_size bytes were read, read min(page_size, remaining) bytes from the
current position (error when the page yields fewer), then either follow
next_page_addr to a freshly decoded BlockHeader or stop at the magic
sentinel.  The fuel argument bounds the number of loop iterations, since
the Rust loop need not terminate on crafted page chains. -/
def readBlockDataLoop :
    Nat → Src → BlockHeader → Nat → Nat → List Nat →
    Except V8Error (List Nat × Src)
  | fuel, s, hdr, dataSize, readIn, acc =>
    if readIn < dataSize then
      match fuel with
      | 0 => .error .noFuel
      | fuel + 1 => do
        let pageSize ← hdr.get_page_size
        let nextPageAddr ← hdr.get_next_page_addr
        let bytesToRead := min pageSize (dataSize - readIn)
        let r := takeRead bytesToRead s
        if r.1.length < bytesToRead then .error .ioError
        else if nextPageAddr ≠ V8_MAGIC_NUMBER then do
          let h2 ← BlockHeader.from_raw_parts ⟨r.2.data, nextPageAddr⟩
          readBlockDataLoop fuel h2.2 h2.1 dataSize (readIn + bytesToRead) (acc ++ r.1)
        else .ok (acc ++ r.1, r.2)
    else .ok (acc, s)

/-- read_block_data (parser/single.rs): read the data_size of the starting
header, then run the page-chain loop. -/
def readBlockData (fuel : Nat) (s : Src) (hdr : BlockHeader) :
    Except V8Error (List Nat × Src) := do
  let dataSize ← hdr.get_data_size
  readBlockDataLoop fuel s hdr dataSize 0 []

/-- Structural worker for the TOC decoding loop: the fuel argument only
bounds the recursion depth and is immaterial whenever it is at least the
input length (readElemsAddrsLoopGo_fuel below). -/
def readElemsAddrsLoopGo : Nat → List Nat → Except V8Error (List ElemAddr)
  | fuel, bs =>
    if bs.isEmpty then .ok []
    else if bs.length < 12 then .error .ioError
    else
      match fuel with
      | 0 => .error .noFuel
      | fuel + 1 => do
        let rest ← readElemsAddrsLoopGo fuel (bs.drop 12)
        .ok (⟨u32le (bs.take 4), u32le ((bs.drop 4).take 4),
              u32le ((bs.drop 8).take 4)⟩ :: rest)

/-- Decoding loop of read_elems_addrs (parser/single.rs): while the cursor
position is below the block length, decode one 12-byte ElemAddr record
(ElemAddr::from_raw_parts fails when fewer than 4 bytes remain for one of
its three u32 reads).  There is no sentinel check here. -/
def readElemsAddrsLoop (bs : List Nat) : Except V8Error (List ElemAddr) :=
  readElemsAddrsLoopGo bs.length bs

/-- read_elems_addrs (parser/single.rs): read the whole table-of-contents
block through read_block_data, then decode it as consecutive fixed-size
ElemAddr records. -/
def readElemsAddrs (fuel : Nat) (s : Src) (hdr : BlockHeader) :
    Except V8Error (List ElemAddr × Src) := do
  let r ← readBlockData fuel s hdr
  let addrs ← readElemsAddrsLoop r.1
  .ok (addrs, r.2)

/-- V8Container::is_v8file (container.rs): decode a FileHeader from position
0 and a BlockHeader right after it; the buffer is a container exactly when
both decodes succeed and the block header is_correct. -/
def is_v8file (data : List Nat) : Bool :=
  match FileHeader.from_raw_parts ⟨data, 0⟩ with
  | .error _ => false
  | .ok fh =>
    match BlockHeader.from_raw_parts fh.2 with
    | .error _ => false
    | .ok bh => bh.1.is_correct

/-- V8Container::get_file_header: seek to 0 and decode the FileHeader. -/
def get_file_header (data : List Nat) : Except V8Error (FileHeader × Src) :=
  FileHeader.from_raw_parts ⟨data, 0⟩

/-- V8Container::get_first_block_header: seek to FileHeader::SIZE and decode
a BlockHeader. -/
def get_first_block_header (data : List Nat) : Except V8Error (BlockHeader × Src) :=
  BlockHeader.from_raw_parts ⟨data, 16⟩

/-- ElemHeaderBegin::SIZE = 20: two 8-byte timestamps and 4 reserved
bytes at the start of an element header block. -/
def ElemHeaderBeginSIZE : Nat := 20

/-- Even-position bytes of a list that are not NUL, in order: the body of
the loop in V8Elem::get_name. -/
def evenNonNul : List Nat → List Nat
  | [] => []
  | [a] => if a ≠ 0 then [a] else []
  | a :: _ :: rest => (if a ≠ 0 then [a] else []) ++ evenNonNul rest

/-- V8Elem::get_name on the raw header-block bytes: split off the 20-byte
ElemHeaderBegin prefix (a Rust panic when the header is shorter), keep the
non-NUL even-position bytes of the remainder, and validate them as UTF-8
(String::from_utf8); the name is returned as its UTF-8 bytes. -/
def nameFromHeader (header : List Nat) : Except V8Error (List Nat) :=
  if header.length < 20 then .error .panicked
  else
    let v := evenNonNul (header.drop 20)
    match utf8Decode v with
    | none => .error .fromUtf8Error
    | some _ => .ok v

/-- File name FileHeader used for the root-header file of the flat layout. -/
def fileHeaderName : List Nat := [70, 105, 108, 101, 72, 101, 97, 100, 101, 114]

/-- File-name suffix .header of the flat layout. -/
def headerSuffix : List Nat := [46, 104, 101, 97, 100, 101, 114]

/-- File-name suffix .data of the flat layout. -/
def dataSuffix : List Nat := [46, 100, 97, 116, 97]

/-- Directory on disk: (file name, file content) pairs in creation order. -/
abbrev Dir : Type := List (List Nat × List Nat)

mutual

/-- Container tree (container.rs struct V8File): root header, table of
contents, and elements in TOC order. -/
inductive V8File where
  | mk (file_header : FileHeader) (elems_addrs : List ElemAddr)
      (elems : List V8Elem) : V8File

/-- Container element (container.rs struct V8Elem): raw header-block bytes,
optional raw data bytes, optional nested container and the nested flag. -/
inductive V8Elem where
  | mk (header : List Nat) (data : Option (List Nat))
      (unpacked_data : Option V8File) (is_v8file : Bool) : V8Elem

end

/-- Field accessor for V8File. -/
def V8File.file_header : V8File → FileHeader
  | .mk fh _ _ => fh

/-- Field accessor for V8File. -/
def V8File.elems_addrs : V8File → List ElemAddr
  | .mk _ ea _ => ea

/-- Field accessor for V8File. -/
def V8File.elems : V8File → List V8Elem
  | .mk _ _ es => es

/-- Field accessor for V8Elem. -/
def V8Elem.header : V8Elem → List Nat
  | .mk h _ _ _ => h

/-- Field accessor for V8Elem. -/
def V8Elem.data : V8Elem → Option (List Nat)
  | .mk _ d _ _ => d

/-- Field accessor for V8Elem. -/
def V8Elem.unpacked_data : V8Elem → Option V8File
  | .mk _ _ u _ => u

/-- Field accessor for V8Elem. -/
def V8Elem.is_v8file : V8Elem → Bool
  | .mk _ _ _ b => b

/-- V8Elem::get_name on the element's stored header bytes. -/
def V8Elem.get_name (e : V8Elem) : Except V8Error (List Nat) :=
  nameFromHeader e.header

/-- V8File::new(): all fields defaulted. -/
def V8File.new : V8File := .mk ⟨0, 0, 0, 0⟩ [] []

/-- Best-effort decompression (inflate::inflate_bytes with fallback to the
raw input), as in try_inflate_bytes of parser/single.rs; the external
inflate crate is the function parameter. -/
def tryInflateBytes (inflate : List Nat → Option (List Nat))
    (input : List Nat) : List Nat :=
  match inflate input with
  | some out => out
  | none => input

/-- Element loop of unpack_to_folder (parser/single.rs): stop at the first
TOC record whose sentinel is not the magic number; per record, seek to the
header block (which must decode and be correct), read it, derive the
element name, write name.header, and when a data block exists read and
write name.data.  Returns the written (file name, bytes) pairs in write
order. -/
def unpackElemsFlat (fuel : Nat) (data : List Nat) :
    List ElemAddr → Except V8Error Dir
  | [] => .ok []
  | a :: rest =>
    if a.fffffff ≠ V8_MAGIC_NUMBER then .ok []
    else do
      let ebh ← BlockHeader.from_raw_parts ⟨data, a.elem_header_addr⟩
      if ¬ ebh.1.is_correct then .error (.notV8File a.elem_header_addr)
      else do
        let hdrR ← readBlockData fuel ebh.2 ebh.1
        let name ← nameFromHeader hdrR.1
        if a.elem_data_addr ≠ V8_MAGIC_NUMBER then do
          let dbh ← BlockHeader.from_raw_parts ⟨data, a.elem_data_addr⟩
          let dr ← readBlockData fuel dbh.2 dbh.1
          let restFiles ← unpackElemsFlat fuel data rest
          .ok ((name ++ headerSuffix, hdrR.1) :: (name ++ dataSuffix, dr.1) :: restFiles)
        else do
          let restFiles ← unpackElemsFlat fuel data rest
          .ok ((name ++ headerSuffix, hdrR.1) :: restFiles)

/-- unpack_to_folder (parser/single.rs): flat raw extraction.  On a buffer
that is not a container it returns false having produced no output;
otherwise it writes the FileHeader file (re-encoded root header), reads the
TOC and runs the element loop.  The Bool of the result is the Rust return
value; the directory is the list of written files. -/
def unpackToFolder (fuel : Nat) (data : List Nat) :
    Except V8Error (Bool × Dir) :=
  if ¬ is_v8file data then .ok (false, [])
  else do
    let fh ← get_file_header data
    let fbh ← get_first_block_header data
    let r ← readElemsAddrs fuel fbh.2 fbh.1
    let files ← unpackElemsFlat fuel data r.1
    .ok (true, (fileHeaderName, fh.1.into_bytes) :: files)

/-- Reader stage of the flat pipeline (start_file_reader_thread in
parser/multi.rs): for each TOC record up to the first non-magic sentinel,
read the header block (must be correct) and the optional data block, and
emit one V8Elem work item; the bounded FIFO channel delivers the items in
production order, so the stage is embedded as the ordered list of items it
sends. -/
def readerElems (fuel : Nat) (data : List Nat) :
    List ElemAddr → Except V8Error (List V8Elem)
  | [] => .ok []
  | a :: rest =>
    if a.fffffff ≠ V8_MAGIC_NUMBER then .ok []
    else do
      let ebh ← BlockHeader.from_raw_parts ⟨data, a.elem_header_addr⟩
      if ¬ ebh.1.is_correct then .error (.notV8File a.elem_header_addr)
      else do
        let hdrR ← readBlockData fuel ebh.2 ebh.1
        if a.elem_data_addr ≠ V8_MAGIC_NUMBER then do
          let dbh ← BlockHeader.from_raw_parts ⟨data, a.elem_data_addr⟩
          let dr ← readBlockData fuel dbh.2 dbh.1
          let rest2 ← readerElems fuel data rest
          .ok (V8Elem.mk hdrR.1 (some dr.1) none false :: rest2)
        else do
          let rest2 ← readerElems fuel data rest
          .ok (V8Elem.mk hdrR.1 none none false :: rest2)

/-- Writer stage of the flat pipeline (start_file_write in parser/multi.rs):
per received item, derive the name, write name.header, and write name.data
when the item carries data. -/
def writerElems : List V8Elem → Except V8Error Dir
  | [] => .ok []
  | e :: rest => do
    let name ← e.get_name
    match e.data with
    | some bd => do
      let rest2 ← writerElems rest
      .ok ((name ++ headerSuffix, e.header) :: (name ++ dataSuffix, bd) :: rest2)
    | none => do
      let rest2 ← writerElems rest
      .ok ((name ++ headerSuffix, e.header) :: rest2)

/-- read_content (parser/multi.rs): validity check (a non-container is the
NotV8File error, at the position where is_v8file left the reader), then
root header, first block header and TOC. -/
def readContent (fuel : Nat) (data : List Nat) :
    Except V8Error (FileHeader × List ElemAddr) :=
  if ¬ is_v8file data then .error (.notV8File (min data.length 47))
  else do
    let fh ← get_file_header data
    let fbh ← get_first_block_header data
    let r ← readElemsAddrs fuel fbh.2 fbh.1
    .ok (fh.1, r.1)

/-- unpack_pipeline (parser/multi.rs): read_content, write the FileHeader
file, then the reader stage feeds the writer stage over the FIFO channel;
the coordinator surfaces the reader error ahead of the writer result, which
the embedding reflects by sequencing the reader stage first. -/
def unpackPipeline (fuel : Nat) (data : List Nat) :
    Except V8Error (Bool × Dir) := do
  let c ← readContent fuel data
  let elems ← readerElems fuel data c.2
  let files ← writerElems elems
  .ok (true, (fileHeaderName, c.1.into_bytes) :: files)

/-- Element loop of load_file (parser/single.rs): stop at the first
non-magic sentinel; read the header block (must be correct) and the data
block when present, attempt decompression, trial-parse the result as a
nested container and hand it to the nested loader when it is one.  The
nested loader is a parameter, so the loop is structural in the record list;
load_file below instantiates it with itself at one less fuel (the Rust
recursion is unbounded). -/
def loadElemsWith (nested : List Nat → Except V8Error V8File) (fuel : Nat)
    (inflate : List Nat → Option (List Nat)) (data : List Nat) :
    List ElemAddr → Except V8Error (List V8Elem)
  | [] => .ok []
  | a :: rest =>
    if a.fffffff ≠ V8_MAGIC_NUMBER then .ok []
    else do
      let ebh ← BlockHeader.from_raw_parts ⟨data, a.elem_header_addr⟩
      if ¬ ebh.1.is_correct then .error (.notV8File a.elem_header_addr)
      else do
        let hdrR ← readBlockData fuel ebh.2 ebh.1
        let elemBlockData ←
          if a.elem_data_addr ≠ V8_MAGIC_NUMBER then do
            let dbh ← BlockHeader.from_raw_parts ⟨data, a.elem_data_addr⟩
            let dr ← readBlockData fuel dbh.2 dbh.1
            pure dr.1
          else pure []
        let outData := tryInflateBytes inflate elemBlockData
        let isv8 := is_v8file outData
        let unpacked ← if isv8 then nested outData else pure V8File.new
        let rest2 ← loadElemsWith nested fuel inflate data rest
        .ok (V8Elem.mk hdrR.1 (some outData) (some unpacked) isv8 :: rest2)

/-- Body of load_file for a given nested loader: root header, first block
header, TOC, then the element loop. -/
def loadFileBody (nested : List Nat → Except V8Error V8File) (fuel : Nat)
    (inflate : List Nat → Option (List Nat)) (data : List Nat) :
    Except V8Error V8File := do
  let fh ← get_file_header data
  let fbh ← get_first_block_header data
  let r ← readElemsAddrs fuel fbh.2 fbh.1
  let elems ← loadElemsWith nested fuel inflate data r.1
  .ok (V8File.mk fh.1 r.1 elems)

/-- load_file (parser/single.rs): root header, first block header, TOC,
then the element loop; the nested recursion consumes one unit of fuel per
nesting level (the Rust recursion is unbounded). -/
def loadFile : Nat → (List Nat → Option (List Nat)) → List Nat → Bool →
    Except V8Error V8File
  | 0, inflate, data, _ =>
    loadFileBody (fun _ => .error .noFuel) 0 inflate data
  | fuel2 + 1, inflate, data, boolInflate =>
    loadFileBody (fun out => loadFile fuel2 inflate out boolInflate)
      (fuel2 + 1) inflate data

/-- Element loop of V8File::save_file_to_folder (container.rs): per element
in order, join the decoded name onto the directory path; a flat element
writes its data bytes (nothing when it has none), a nested element saves
its sub-container into the sub-path recursively.  One unit of fuel is
consumed per nesting level. -/
def saveElemsToFolder (fuel : Nat) (path : List Nat) :
    List V8Elem → Except V8Error Dir
  | [] => .ok []
  | e :: rest => do
    let name ← e.get_name
    let outPath := path ++ 47 :: name
    let files ←
      if ¬ e.is_v8file then
        pure (match e.data with
              | some d => [(outPath, d)]
              | none => [])
      else
        match e.unpacked_data with
        | some sub =>
          match fuel with
          | 0 => .error .noFuel
          | fuel2 + 1 => saveElemsToFolder fuel2 outPath sub.elems
        | none => pure []
    let rest2 ← saveElemsToFolder fuel path rest
    .ok (files ++ rest2)
termination_by es => (fuel, es.length)

/-- V8File::save_file_to_folder: save every element under the given
directory path. -/
def saveFileToFolder (fuel : Nat) (f : V8File) (path : List Nat) :
    Except V8Error Dir :=
  saveElemsToFolder fuel path f.elems

/-- process_data (parser/single.rs): decode the data-block header at the
current position (must be correct, else NotV8File at the position after
it), read the block, attempt decompression, then either recursively load
and save a nested container or write the bytes as one file at the element
path. -/
def processData (fuel : Nat) (inflate : List Nat → Option (List Nat))
    (data : List Nat) (pos : Nat) (needUnpack : Bool) (elemPath : List Nat) :
    Except V8Error (Bool × Dir) := do
  let h ← BlockHeader.from_raw_parts ⟨data, pos⟩
  if ¬ h.1.is_correct then .error (.notV8File h.2.pos)
  else do
    let bd ← readBlockData fuel h.2 h.1
    let outData := tryInflateBytes inflate bd.1
    if is_v8file outData then do
      let f ←
        match fuel with
        | 0 => .error .noFuel
        | fuel2 + 1 => loadFile fuel2 inflate outData needUnpack
      let files ← saveFileToFolder fuel f elemPath
      .ok (true, files)
    else .ok (true, [(elemPath, outData)])

/-- Element loop of unpack_to_directory_no_load (parser/single.rs): stop at
the first non-magic sentinel; per record, the header block must decode and
be correct, its data gives the element name, and when a data block exists
process_data writes the (possibly recursively expanded) output under the
element name. -/
def noLoadElems (fuel : Nat) (inflate : List Nat → Option (List Nat))
    (data : List Nat) (boolInflate : Bool) :
    List ElemAddr → Except V8Error Dir
  | [] => .ok []
  | a :: rest =>
    if a.fffffff ≠ V8_MAGIC_NUMBER then .ok []
    else do
      let ebh ← BlockHeader.from_raw_parts ⟨data, a.elem_header_addr⟩
      if ¬ ebh.1.is_correct then .error (.notV8File a.elem_header_addr)
      else do
        let hdrR ← readBlockData fuel ebh.2 ebh.1
        let name ← nameFromHeader hdrR.1
        let files ←
          if a.elem_data_addr ≠ V8_MAGIC_NUMBER then do
            let pd ← processData fuel inflate data a.elem_data_addr boolInflate name
            pure pd.2
          else pure []
        let rest2 ← noLoadElems fuel inflate data boolInflate rest
        .ok (files ++ rest2)

/-- unpack_to_directory_no_load (parser/single.rs): on a buffer that is not
a container return false with no output; otherwise read the TOC and run the
element loop, writing files relative to the output directory root. -/
def unpackToDirectoryNoLoad (fuel : Nat)
    (inflate : List Nat → Option (List Nat)) (data : List Nat)
    (boolInflate _unpackWhenNeed : Bool) : Except V8Error (Bool × Dir) :=
  if ¬ is_v8file data then .ok (false, [])
  else do
    let fbh ← get_first_block_header data
    let r ← readElemsAddrs fuel fbh.2 fbh.1
    let files ← noLoadElems fuel inflate data boolInflate r.1
    .ok (true, files)

/-- Content of the first directory entry with the given file name, as a
filesystem lookup (fs::File::open / fs::metadata) on the directory. -/
def dirLookup (dir : Dir) (name : List Nat) : Option (List Nat) :=
  (dir.find? fun p => p.1 == name).map (·.2)

/-- Index of the last dot byte in a file name, the scan underlying Rust
Path::extension and Path::set_extension. -/
def lastDotIdxAux : List Nat → Nat → Option Nat → Option Nat
  | [], _, acc => acc
  | b :: bs, i, acc => lastDotIdxAux bs (i + 1) (if b == 46 then some i else acc)

/-- Extension of a file name per Rust Path::extension: the part after the
last dot; none when there is no dot or when the only dot is the leading
character of a hidden file. -/
def extOf (fname : List Nat) : Option (List Nat) :=
  match lastDotIdxAux fname 0 none with
  | none => none
  | some 0 => none
  | some i => some (fname.drop (i + 1))

/-- Path::set_extension with extension data: replace everything after the
last dot (append when the name has no usable dot). -/
def setExtData (fname : List Nat) : List Nat :=
  match lastDotIdxAux fname 0 none with
  | none => fname ++ dataSuffix
  | some 0 => fname ++ dataSuffix
  | some i => fname.take i ++ dataSuffix

/-- Extension bytes header. -/
def extHeader : List Nat := [104, 101, 97, 100, 101, 114]

/-- One entry of the pack worklist (builder/mod.rs struct
PackElementEntry): paths of the header and data sidecar files and their
metadata sizes. -/
structure PackElementEntry where
  header_file : List Nat
  data_file : List Nat
  header_size : Nat
  data_size : Nat

deriving DecidableEq, Repr

/-- prepare_pack_files (builder/mod.rs): keep the directory entries whose
extension is header, in directory order; for each, record its size and the
size of the sibling .data file (an io error when that file is missing). -/
def preparePackFiles (dir : Dir) : Dir → Except V8Error (List PackElementEntry)
  | [] => .ok []
  | (name, content) :: rest =>
    if extOf name == some extHeader then
      match dirLookup dir (setExtData name) with
      | none => .error .ioError
      | some dcontent => do
        let r ← preparePackFiles dir rest
        .ok (⟨name, setExtData name, content.length, dcontent.length⟩ :: r)
    else preparePackFiles dir rest

/-- save_block_data (builder/mod.rs) as the bytes it appends: a BlockHeader
with data_size the u32-truncated payload length, page size max(page,
payload), magic next-page sentinel, then the payload, then the zero padding
up to the actual page size.  The length guard of the source constructs an
io::Error value but never returns it, so an oversized payload is not
rejected and its length is silently truncated in the header. -/
def saveBlockData (blockData : List Nat) (pageSize : Nat) : List Nat :=
  let blockSize := u32mod blockData.length
  let pageSizeActual := if pageSize < blockSize then blockSize else pageSize
  (BlockHeader.new blockSize pageSizeActual V8_MAGIC_NUMBER).into_bytes ++
    blockData ++ List.replicate (pageSizeActual - blockSize) 0

/-- Offset accumulation of save_elem_addrs (builder/mod.rs): starting after
the root header, the first block header and the TOC page, lay out per
element the header block then the data block, each data page rounded up to
the default page size; u32 additions wrap and the u64-to-u32 size casts
truncate.  Returns the serialized ElemAddr records. -/
def saveElemAddrsGo : List PackElementEntry → Nat → List Nat
  | [], _ => []
  | e :: rest, cur =>
    let elemHeaderAddr := cur
    let cur1 := u32mod (cur + 31 + u32mod e.header_size)
    let elemDataAddr := cur1
    let cur2 := u32mod (cur1 + 31)
    let cur3 := u32mod (cur2 + max (u32mod e.data_size) V8_DEFAULT_PAGE_SIZE)
    (ElemAddr.new elemDataAddr elemHeaderAddr).into_bytes ++ saveElemAddrsGo rest cur3

/-- save_elem_addrs (builder/mod.rs): compute the TOC records from the
sidecar sizes and write them as one block with the default page size. -/
def saveElemAddrs (packElems : List PackElementEntry) : List Nat :=
  let cur0 := u32mod (16 + 31 +
    max (u32mod (12 * u32mod packElems.length)) V8_DEFAULT_PAGE_SIZE)
  saveBlockData (saveElemAddrsGo packElems cur0) V8_DEFAULT_PAGE_SIZE

/-- save_data (builder/mod.rs): per pack entry, re-read the header sidecar
and write it as a block paged by its own (u32-truncated) size, then the
data sidecar as a block with the default page size. -/
def saveData (dir : Dir) : List PackElementEntry → Except V8Error (List Nat)
  | [] => .ok []
  | e :: rest =>
    match dirLookup dir e.header_file with
    | none => .error .ioError
    | some hbuf =>
      match dirLookup dir e.data_file with
      | none => .error .ioError
      | some dbuf => do
        let r ← saveData dir rest
        .ok (saveBlockData hbuf (u32mod e.header_size) ++
             saveBlockData dbuf V8_DEFAULT_PAGE_SIZE ++ r)

/-- pack_from_folder (builder/mod.rs): copy the FileHeader file (a Rust
panic through expect when it is missing), then append the TOC block and
every element's header and data blocks. -/
def packFromFolder (dir : Dir) : Except V8Error (List Nat) :=
  match dirLookup dir fileHeaderName with
  | none => .error .panicked
  | some fhBytes => do
    let packElems ← preparePackFiles dir dir
    let body ← saveData dir packElems
    .ok (fhBytes ++ saveElemAddrs packElems ++ body)

/-- Overwrite bytes of a file at a seek position, the effect of
seek(Start(pos)) followed by write_all. -/
def overwriteAt (file : List Nat) (pos : Nat) (bs : List Nat) : List Nat :=
  file.take pos ++ bs ++ file.drop (pos + bs.length)

/-- process_files (builder/mod.rs) on a directory of regular files: per
entry in directory order (an entry whose name is not valid UTF-8 is skipped
with a log message), synthesize an element header of 20 zero bytes followed
by the UTF-16LE name, its NUL byte and four trailing zeros, write it as a
block paged by its own size, then (process_v8file) read the entry content,
deflate it unless no_deflate is set, and write it as a block paged by its
own size; the TOC records the running u32 offsets.  Returns the appended
bytes and the TOC. -/
def buildProcessFiles (deflate : List Nat → List Nat) (noDeflate : Bool) :
    Dir → Nat → List Nat × List ElemAddr
  | [], _ => ([], [])
  | (fname, content) :: rest, cur =>
    match utf8Decode fname with
    | none => buildProcessFiles deflate noDeflate rest cur
    | some chars =>
      let header := List.replicate 20 0 ++ utf16leBytes chars ++ [0] ++ [0, 0, 0, 0]
      let headerBlock := saveBlockData header (u32mod header.length)
      let elemHeaderAddr := cur
      let cur1 := u32mod (cur + u32mod headerBlock.length)
      let elemDataAddr := cur1
      let d := if noDeflate then content else deflate content
      let dataBlock := saveBlockData d (u32mod d.length)
      let cur2 := u32mod (cur1 + u32mod dataBlock.length)
      let r := buildProcessFiles deflate noDeflate rest cur2
      (headerBlock ++ dataBlock ++ r.1,
       ElemAddr.new elemDataAddr elemHeaderAddr :: r.2)

/-- build_cf_file (builder/mod.rs): pre-extend the output with zeros up to
the first element offset, append every element's blocks while collecting
the TOC, then seek back to write the fresh root header at 0 and the TOC
block (paged by its own size) at 16. -/
def buildCfFile (deflate : List Nat → List Nat) (dir : Dir)
    (noDeflate : Bool) : List Nat :=
  let elemsNum := u32mod dir.length
  let cur0 := u32mod (16 + 31 + max (u32mod (12 * elemsNum)) V8_DEFAULT_PAGE_SIZE)
  let r := buildProcessFiles deflate noDeflate dir cur0
  let out1 := List.replicate cur0 0 ++ r.1
  let out2 := overwriteAt out1 0 (FileHeader.new V8_MAGIC_NUMBER V8_DEFAULT_PAGE_SIZE 0).into_bytes
  let tocBytes := r.2.flatMap ElemAddr.into_bytes
  overwriteAt out2 16 (saveBlockData tocBytes (u32mod tocBytes.length))

/-- ASCII hexadecimal digit bytes, the domain of char::to_digit(16). -/
def isHexDigitByte (b : Nat) : Prop :=
  (48 ≤ b ∧ b ≤ 57) ∨ (97 ≤ b ∧ b ≤ 102) ∨ (65 ≤ b ∧ b ≤ 70)

instance (b : Nat) : Decidable (isHexDigitByte b) := by
  unfold isHexDigitByte
  infer_instance

/-- Empty container: a root header followed by a table-of-contents block
header of data size zero; 47 bytes in total. -/
def sampleEmptyContainer : List Nat :=
  (FileHeader.new V8_MAGIC_NUMBER 512 0).into_bytes ++
    (BlockHeader.new 0 0 V8_MAGIC_NUMBER).into_bytes

/-- Three-page chain: 512 bytes, a header pointing at offset 1055, 512
bytes, a final header with the magic sentinel, 476 bytes. -/
def threePageData : List Nat :=
  List.replicate 512 1 ++ (BlockHeader.new 1000 512 1055).into_bytes ++
    List.replicate 512 2 ++
    (BlockHeader.new 1000 512 V8_MAGIC_NUMBER).into_bytes ++
    List.replicate 476 3

/-- Starting header of the three-page chain: data_size 1000, page capacity
512, next page at offset 512. -/
def threePageHdr : BlockHeader := BlockHeader.new 1000 512 512

/-- Abstract view of one element of the flat raw-extraction layout as the
unpack loop writes it: name, raw header-block bytes and, when the TOC
records a data block, its raw bytes. -/
structure FlatElemO where
  name : List Nat
  hdr : List Nat
  dat : Option (List Nat)

/-- Files written for one element by the flat unpack loop. -/
def filesO (e : FlatElemO) : Dir :=
  (e.name ++ headerSuffix, e.hdr) ::
    (match e.dat with
     | some d => [(e.name ++ dataSuffix, d)]
     | none => [])

/-- Abstract view of one element when a data file is present. -/
structure FlatElem where
  name : List Nat
  hdr : List Nat
  dat : List Nat

/-- Files written for one element with both sidecars. -/
def filesF (e : FlatElem) : Dir :=
  [(e.name ++ headerSuffix, e.hdr), (e.name ++ dataSuffix, e.dat)]

/-- Invariants of the files the unpack loop writes: the recorded name is
the one decoded from the header bytes, header blocks carry the 20-byte
fixed prefix, and all block payloads are u8 byte lists shorter than 2^32
(their length is a decoded u32). -/
def goodElemO (e : FlatElemO) : Prop :=
  nameFromHeader e.hdr = .ok e.name ∧ 20 ≤ e.hdr.length ∧
  e.hdr.length < 4294967296 ∧ (∀ b ∈ e.hdr, b < 256) ∧
  ∀ d, e.dat = some d → d.length < 4294967296 ∧ ∀ b ∈ d, b < 256

/-- Invariants of one flat element with both sidecars present. -/
def goodElem (e : FlatElem) : Prop :=
  nameFromHeader e.hdr = .ok e.name ∧ 20 ≤ e.hdr.length ∧
  e.hdr.length < 4294967296 ∧ (∀ b ∈ e.hdr, b < 256) ∧
  e.dat.length < 4294967296 ∧ (∀ b ∈ e.dat, b < 256)

/-- Pack worklist entries recorded by prepare_pack_files for the flat
layout of a list of elements. -/
def packEntries (elems : List FlatElem) : List PackElementEntry :=
  elems.map fun e =>
    ⟨e.name ++ headerSuffix, e.name ++ dataSuffix, e.hdr.length, e.dat.length⟩

/-- Bytes save_data appends for one element: its header block paged by its
own size, then its data block paged by the default page size. -/
def elemBlocks (e : FlatElem) : List Nat :=
  saveBlockData e.hdr (u32mod e.hdr.length) ++
    saveBlockData e.dat V8_DEFAULT_PAGE_SIZE

/-- Bytes save_data appends for a list of elements. -/
def bodyOf (elems : List FlatElem) : List Nat := elems.flatMap elemBlocks

/-- Element addresses as save_elem_addrs computes them when no u32 wrap
occurs: per element the header block starts at the running offset and the
data block right after it. -/
def idealToc : List FlatElem → Nat → List ElemAddr
  | [], _ => []
  | e :: rest, cur =>
    ⟨cur, cur + 31 + e.hdr.length, V8_MAGIC_NUMBER⟩ ::
      idealToc rest (cur + 31 + e.hdr.length + 31 + max e.dat.length 512)

/-- View of a flat element whose data sidecar is known to exist. -/
def toF (e : FlatElemO) : FlatElem := ⟨e.name, e.hdr, e.dat.getD []⟩

theorem utf8Step_length_le (b0 : Nat) (rest : List Nat) (c : Nat)
    (rest2 : List Nat) (h : utf8Step b0 rest = some (c, rest2)) :
    rest2.length ≤ rest.length := by
  unfold utf8Step at h
  split_ifs at h <;>
    rcases rest with _ | ⟨b1, _ | ⟨b2, _ | ⟨b3, tl⟩⟩⟩ <;>
      simp_all <;> try omega

theorem utf8DecodeGo_fuel :
    ∀ fuel fuel2 : Nat, ∀ l : List Nat, l.length ≤ fuel → l.length ≤ fuel2 →
      utf8DecodeGo fuel l = utf8DecodeGo fuel2 l := by
  intro fuel
  induction fuel with
  | zero =>
    intro fuel2 l h1 _
    have : l = [] := List.length_eq_zero.mp (Nat.le_zero.mp h1)
    subst this
    cases fuel2 <;> rfl
  | succ f ih =>
    intro fuel2 l h1 h2
    cases l with
    | nil => cases fuel2 <;> rfl
    | cons b0 rest =>
      cases fuel2 with
      | zero => simp at h2
      | succ f2 =>
        simp only [List.length_cons, Nat.succ_le_succ_iff] at h1 h2
        simp only [utf8DecodeGo]
        rw [ih f2 rest h1 h2]
        cases hstep : utf8Step b0 rest with
        | none => rfl
        | some cr =>
          have hlen := utf8Step_length_le b0 rest cr.1 cr.2 (by rw [hstep])
          have hgo := ih f2 cr.2 (le_trans hlen h1) (le_trans hlen h2)
          simp [hgo]

theorem utf8Decode_cons (b0 : Nat) (rest : List Nat) :
    utf8Decode (b0 :: rest) =
      if b0 ≤ 127 then (utf8Decode rest).map (b0 :: ·)
      else
        match utf8Step b0 rest with
        | none => none
        | some cr => (utf8Decode cr.2).map (cr.1 :: ·) := by
  unfold utf8Decode
  simp only [List.length_cons, utf8DecodeGo]
  rw [utf8DecodeGo_fuel rest.length rest.length rest le_rfl le_rfl]
  cases hstep : utf8Step b0 rest with
  | none => rfl
  | some cr =>
    have hlen := utf8Step_length_le b0 rest cr.1 cr.2 (by rw [hstep])
    have hgo := utf8DecodeGo_fuel rest.length cr.2.length cr.2 hlen le_rfl
    simp [hgo, utf8Decode]

theorem readElemsAddrsLoopGo_fuel :
    ∀ fuel fuel2 : Nat, ∀ bs : List Nat, bs.length ≤ fuel → bs.length ≤ fuel2 →
      readElemsAddrsLoopGo fuel bs = readElemsAddrsLoopGo fuel2 bs := by
  intro fuel
  induction fuel with
  | zero =>
    intro fuel2 bs h1 _
    have : bs = [] := List.length_eq_zero.mp (Nat.le_zero.mp h1)
    subst this
    rw [readElemsAddrsLoopGo.eq_def, readElemsAddrsLoopGo.eq_def]
    rfl
  | succ f ih =>
    intro fuel2 bs h1 h2
    rw [readElemsAddrsLoopGo.eq_def, readElemsAddrsLoopGo.eq_def]
    by_cases he : bs.isEmpty
    · simp [he]
    · simp only [he, if_false]
      by_cases hlen : bs.length < 12
      · simp [hlen]
      · simp only [hlen, if_false]
        cases fuel2 with
        | zero => omega
        | succ f2 =>
          rw [ih f2 (bs.drop 12) (by simp; omega) (by simp; omega)]

theorem readElemsAddrsLoop_eq (bs : List Nat) :
    readElemsAddrsLoop bs =
      if bs.isEmpty then .ok []
      else if bs.length < 12 then .error .ioError
      else
        (do
          let rest ← readElemsAddrsLoop (bs.drop 12)
          .ok (⟨u32le (bs.take 4), u32le ((bs.drop 4).take 4),
                u32le ((bs.drop 8).take 4)⟩ :: rest)) := by
  unfold readElemsAddrsLoop
  rw [readElemsAddrsLoopGo.eq_def]
  by_cases he : bs.isEmpty
  · simp [he]
  · simp only [he, if_false]
    by_cases hlen : bs.length < 12
    · simp [hlen]
    · simp only [hlen, if_false]
      cases hf : bs.length with
      | zero =>
        rw [List.isEmpty_iff_length_eq_zero, hf] at he
        omega
      | succ f =>
        have hgo := readElemsAddrsLoopGo_fuel f (bs.drop 12).length (bs.drop 12)
          (by simp; omega) le_rfl
        simp [hgo]

/-! Helper lemmas about the hex codec. -/

theorem hexDigit_lt_256 (x : Nat) (hx : x < 16) : hexDigit x < 256 := by
  unfold hexDigit
  split <;> omega

theorem hexDigit_ne_43 (x : Nat) : hexDigit x ≠ 43 := by
  unfold hexDigit
  split <;> omega

theorem hexDigit_le_127 (x : Nat) (hx : x < 16) : hexDigit x ≤ 127 := by
  unfold hexDigit
  split <;> omega

theorem toDigit16_hexDigit (x : Nat) (hx : x < 16) :
    toDigit16 (hexDigit x) = some x := by
  unfold toDigit16 hexDigit
  split_ifs <;> simp_all <;> omega

theorem utf8Decode_ascii (l : List Nat) (h : ∀ b ∈ l, b ≤ 127) :
    utf8Decode l = some l := by
  induction l with
  | nil => rfl
  | cons b rest ih =>
    have hb : b ≤ 127 := h b (List.mem_cons_self b rest)
    rw [utf8Decode_cons, if_pos hb, ih (fun x hx => h x (List.mem_cons_of_mem b hx))]
    rfl

theorem fromStrRadix16Go_digits :
    ∀ ds : List Nat, ∀ acc : Nat, (∀ d ∈ ds, d < 16) →
      ds.foldl (fun a d => a * 16 + d) acc < 4294967296 →
      fromStrRadix16Go (ds.map hexDigit) acc =
        .ok (ds.foldl (fun a d => a * 16 + d) acc)
  | [], acc, _, _ => rfl
  | d :: ds, acc, hd, hlt => by
    have hdlt : d < 16 := hd d (List.mem_cons_self d ds)
    have hmono : ∀ l : List Nat, ∀ a : Nat,
        a ≤ l.foldl (fun a d => a * 16 + d) a := by
      intro l
      induction l with
      | nil => intro a; simp
      | cons x xs ih =>
        intro a
        simp only [List.foldl_cons]
        exact le_trans (by omega) (ih (a * 16 + x))
    simp only [List.foldl_cons] at hlt
    have hstep : acc * 16 + d < 4294967296 :=
      lt_of_le_of_lt (hmono ds (acc * 16 + d)) hlt
    simp only [List.map_cons, fromStrRadix16Go, toDigit16_hexDigit d hdlt,
      if_pos hstep]
    exact fromStrRadix16Go_digits ds (acc * 16 + d)
      (fun x hx => hd x (List.mem_cons_of_mem d hx)) hlt

theorem fromStrRadix16_cons_ne43 (c : Nat) (cs : List Nat) (hc : c ≠ 43) :
    fromStrRadix16 (c :: cs) = fromStrRadix16Go (c :: cs) 0 := by
  unfold fromStrRadix16
  simp [hc]

theorem convert_eq_map (v : Nat) :
    convert v =
      [v / 268435456 % 16, v / 16777216 % 16, v / 1048576 % 16, v / 65536 % 16,
       v / 4096 % 16, v / 256 % 16, v / 16 % 16, v % 16].map hexDigit := rfl

theorem get_u32_convert (v : Nat) (hv : v < 4294967296) :
    BlockHeader.get_u32 (convert v) = .ok v := by
  have hdigits : ∀ d ∈ [v / 268435456 % 16, v / 16777216 % 16, v / 1048576 % 16,
      v / 65536 % 16, v / 4096 % 16, v / 256 % 16, v / 16 % 16, v % 16], d < 16 := by
    intro d hd
    simp only [List.mem_cons, List.not_mem_nil, or_false] at hd
    rcases hd with h | h | h | h | h | h | h | h <;> subst h <;> omega
  have hfold : [v / 268435456 % 16, v / 16777216 % 16, v / 1048576 % 16,
      v / 65536 % 16, v / 4096 % 16, v / 256 % 16, v / 16 % 16,
      v % 16].foldl (fun a d => a * 16 + d) 0 = v := by
    simp only [List.foldl_cons, List.foldl_nil]
    omega
  have hascii : ∀ b ∈ convert v, b ≤ 127 := by
    rw [convert_eq_map]
    intro b hb
    simp only [List.mem_map] at hb
    obtain ⟨d, hd, rfl⟩ := hb
    exact hexDigit_le_127 d (hdigits d hd)
  unfold BlockHeader.get_u32
  rw [utf8Decode_ascii (convert v) hascii]
  have hgo := fromStrRadix16Go_digits [v / 268435456 % 16, v / 16777216 % 16,
    v / 1048576 % 16, v / 65536 % 16, v / 4096 % 16, v / 256 % 16, v / 16 % 16,
    v % 16] 0 hdigits (by rw [hfold]; exact hv)
  simp only [List.map_cons, List.map_nil] at hgo
  rw [convert_eq_map]
  simp only [List.map_cons, List.map_nil]
  rw [fromStrRadix16_cons_ne43 _ _ (hexDigit_ne_43 _), hgo, hfold]

theorem toDigit16_isSome_iff (c : Nat) :
    (∃ d, toDigit16 c = some d) ↔ isHexDigitByte c := by
  unfold toDigit16 isHexDigitByte
  split_ifs <;> simp_all

theorem fromStrRadix16Go_mem (ds : List Nat) :
    ∀ acc v : Nat, fromStrRadix16Go ds acc = .ok v →
      ∀ c ∈ ds, isHexDigitByte c := by
  induction ds with
  | nil => simp
  | cons c cs ih =>
    intro acc v h x hx
    rw [fromStrRadix16Go] at h
    cases hd : toDigit16 c with
    | none =>
      simp only [hd] at h
      simp at h
    | some d =>
      simp only [hd] at h
      by_cases hlt : acc * 16 + d < 4294967296
      · rw [if_pos hlt] at h
        rcases List.mem_cons.mp hx with rfl | hx2
        · exact (toDigit16_isSome_iff x).mp ⟨d, hd⟩
        · exact ih (acc * 16 + d) v h x hx2
      · rw [if_neg hlt] at h
        exact absurd h (by simp)

theorem fromStrRadix16_cons43 (cs : List Nat) :
    fromStrRadix16 (43 :: cs) =
      (match cs with
       | [] => .error .parseIntError
       | _ => fromStrRadix16Go cs 0) := by
  unfold fromStrRadix16
  simp

theorem fromStrRadix16_mem (chars : List Nat) (v : Nat)
    (h : fromStrRadix16 chars = .ok v) :
    ∀ c ∈ chars, isHexDigitByte c ∨ c = 43 := by
  intro c hc
  cases chars with
  | nil => simp at hc
  | cons c0 cs =>
    by_cases h43 : c0 = 43
    · subst h43
      rw [fromStrRadix16_cons43] at h
      rcases List.mem_cons.mp hc with rfl | hc2
      · exact Or.inr rfl
      · cases cs with
        | nil => simp at h
        | cons c1 cs2 => exact Or.inl (fromStrRadix16Go_mem _ 0 v h c hc2)
    · rw [fromStrRadix16_cons_ne43 c0 cs h43] at h
      exact Or.inl (fromStrRadix16Go_mem _ 0 v h c hc)

theorem utf8Step_facts (b0 : Nat) (rest : List Nat) (c : Nat)
    (rest2 : List Nat) (h : utf8Step b0 rest = some (c, rest2)) :
    128 ≤ c ∧ ∀ x ∈ rest, x ≤ 127 → x ∈ rest2 := by
  unfold utf8Step at h
  by_cases h1 : 194 ≤ b0 ∧ b0 ≤ 223
  · rw [if_pos h1] at h
    rcases rest with _ | ⟨b1, tl⟩
    · simp at h
    · simp only at h
      by_cases hc1 : isCont b1 = true
      · rw [if_pos hc1] at h
        simp only [Option.some.injEq, Prod.mk.injEq] at h
        obtain ⟨hceq, hreq⟩ := h
        subst hceq
        subst hreq
        simp only [isCont, Bool.and_eq_true, decide_eq_true_eq] at hc1
        refine ⟨by omega, fun x hx hx127 => ?_⟩
        rcases List.mem_cons.mp hx with rfl | hx2
        · omega
        · exact hx2
      · rw [if_neg hc1] at h
        simp at h
  · rw [if_neg h1] at h
    by_cases h2 : 224 ≤ b0 ∧ b0 ≤ 239
    · rw [if_pos h2] at h
      rcases rest with _ | ⟨b1, _ | ⟨b2, tl⟩⟩
      · simp at h
      · simp at h
      · simp only at h
        by_cases hok : ((if b0 = 224 then decide (160 ≤ b1 ∧ b1 ≤ 191)
            else if b0 = 237 then decide (128 ≤ b1 ∧ b1 ≤ 159)
            else isCont b1) && isCont b2) = true
        · rw [if_pos hok] at h
          simp only [Option.some.injEq, Prod.mk.injEq] at h
          obtain ⟨hceq, hreq⟩ := h
          subst hceq
          subst hreq
          simp only [Bool.and_eq_true] at hok
          have hb2 : 128 ≤ b2 ∧ b2 ≤ 191 := by
            have := hok.2
            simp only [isCont, Bool.and_eq_true, decide_eq_true_eq] at this
            omega
          have hb1 : 128 ≤ b1 ∧ (b0 = 224 → 160 ≤ b1) := by
            have hx := hok.1
            by_cases hE0 : b0 = 224
            · rw [if_pos hE0] at hx
              simp only [decide_eq_true_eq] at hx
              omega
            · rw [if_neg hE0] at hx
              by_cases hED : b0 = 237
              · rw [if_pos hED] at hx
                simp only [decide_eq_true_eq] at hx
                omega
              · rw [if_neg hED] at hx
                simp only [isCont, Bool.and_eq_true, decide_eq_true_eq] at hx
                omega
          refine ⟨?_, fun x hx hx127 => ?_⟩
          · by_cases hE0 : b0 = 224
            · have := hb1.2 hE0
              subst hE0
              have : 2048 ≤ (b1 - 128) * 64 := by
                have h32 : 32 ≤ b1 - 128 := by omega
                calc 2048 = 32 * 64 := by omega
                  _ ≤ (b1 - 128) * 64 := Nat.mul_le_mul_right 64 h32
              omega
            · have h225 : 225 ≤ b0 := by omega
              have : 4096 ≤ (b0 - 224) * 4096 := by
                have h1b : 1 ≤ b0 - 224 := by omega
                calc 4096 = 1 * 4096 := by omega
                  _ ≤ (b0 - 224) * 4096 := Nat.mul_le_mul_right 4096 h1b
              omega
          · rcases List.mem_cons.mp hx with rfl | hx2
            · omega
            · rcases List.mem_cons.mp hx2 with rfl | hx3
              · omega
              · exact hx3
        · rw [if_neg hok] at h
          simp at h
    · rw [if_neg h2] at h
      by_cases h3 : 240 ≤ b0 ∧ b0 ≤ 244
      · rw [if_pos h3] at h
        rcases rest with _ | ⟨b1, _ | ⟨b2, _ | ⟨b3, tl⟩⟩⟩
        · simp at h
        · simp at h
        · simp at h
        · simp only at h
          by_cases hok : ((if b0 = 240 then decide (144 ≤ b1 ∧ b1 ≤ 191)
              else if b0 = 244 then decide (128 ≤ b1 ∧ b1 ≤ 143)
              else isCont b1) && isCont b2 && isCont b3) = true
          · rw [if_pos hok] at h
            simp only [Option.some.injEq, Prod.mk.injEq] at h
            obtain ⟨hceq, hreq⟩ := h
            subst hceq
            subst hreq
            simp only [Bool.and_eq_true] at hok
            have hb23 : 128 ≤ b2 ∧ 128 ≤ b3 := by
              have ha := hok.1.2
              have hb := hok.2
              simp only [isCont, Bool.and_eq_true, decide_eq_true_eq] at ha hb
              omega
            have hb1 : 128 ≤ b1 ∧ (b0 = 240 → 144 ≤ b1) := by
              have hx := hok.1.1
              by_cases hF0 : b0 = 240
              · rw [if_pos hF0] at hx
                simp only [decide_eq_true_eq] at hx
                omega
              · rw [if_neg hF0] at hx
                by_cases hF4 : b0 = 244
                · rw [if_pos hF4] at hx
                  simp only [decide_eq_true_eq] at hx
                  omega
                · rw [if_neg hF4] at hx
                  simp only [isCont, Bool.and_eq_true, decide_eq_true_eq] at hx
                  omega
            refine ⟨?_, fun x hx hx127 => ?_⟩
            · by_cases hF0 : b0 = 240
              · have := hb1.2 hF0
                have : 65536 ≤ (b1 - 128) * 4096 := by
                  have h16 : 16 ≤ b1 - 128 := by omega
                  calc 65536 = 16 * 4096 := by omega
                    _ ≤ (b1 - 128) * 4096 := Nat.mul_le_mul_right 4096 h16
                omega
              · have h241 : 241 ≤ b0 := by omega
                have : 262144 ≤ (b0 - 240) * 262144 := by
                  have h1b : 1 ≤ b0 - 240 := by omega
                  calc 262144 = 1 * 262144 := by omega
                    _ ≤ (b0 - 240) * 262144 := Nat.mul_le_mul_right 262144 h1b
                omega
            · rcases List.mem_cons.mp hx with rfl | hx2
              · omega
              · rcases List.mem_cons.mp hx2 with rfl | hx3
                · omega
                · rcases List.mem_cons.mp hx3 with rfl | hx4
                  · omega
                  · exact hx4
          · rw [if_neg hok] at h
            simp at h
      · rw [if_neg h3] at h
        simp at h

theorem utf8Decode_mem_ascii (b : Nat) (hb : b ≤ 127) :
    ∀ l : List Nat, ∀ chars : List Nat, utf8Decode l = some chars →
      b ∈ l → b ∈ chars := by
  suffices hn : ∀ n : Nat, ∀ l : List Nat, l.length ≤ n →
      ∀ chars : List Nat, utf8Decode l = some chars → b ∈ l → b ∈ chars by
    intro l
    exact hn l.length l le_rfl
  intro n
  induction n with
  | zero =>
    intro l hlen chars _ hm
    have : l = [] := List.length_eq_zero.mp (Nat.le_zero.mp hlen)
    subst this
    simp at hm
  | succ n ih =>
    intro l hlen
    cases l with
    | nil => intro chars _ hm; simp at hm
    | cons b0 rest =>
      intro chars hdec hm
      simp only [List.length_cons, Nat.succ_le_succ_iff] at hlen
      rw [utf8Decode_cons] at hdec
      by_cases h0 : b0 ≤ 127
      · rw [if_pos h0] at hdec
        cases hrest : utf8Decode rest with
        | none => rw [hrest] at hdec; simp at hdec
        | some cs =>
          rw [hrest] at hdec
          simp only [Option.map_some' , Option.some.injEq] at hdec
          subst hdec
          rcases List.mem_cons.mp hm with rfl | hm2
          · exact List.mem_cons_self b cs
          · exact List.mem_cons_of_mem b0 (ih rest hlen cs hrest hm2)
      · rw [if_neg h0] at hdec
        cases hstep : utf8Step b0 rest with
        | none => rw [hstep] at hdec; simp at hdec
        | some cr =>
          rw [hstep] at hdec
          simp only at hdec
          cases hrest : utf8Decode cr.2 with
          | none => rw [hrest] at hdec; simp at hdec
          | some cs =>
            rw [hrest] at hdec
            simp only [Option.map_some' , Option.some.injEq] at hdec
            subst hdec
            obtain ⟨hc128, hmem⟩ := utf8Step_facts b0 rest cr.1 cr.2 (by
              rw [hstep])
            rcases List.mem_cons.mp hm with rfl | hm2
            · omega
            · have hb2 : b ∈ cr.2 := hmem b hm2 hb
              have hsl := utf8Step_length_le b0 rest cr.1 cr.2 (by rw [hstep])
              exact List.mem_cons_of_mem cr.1
                (ih cr.2 (le_trans hsl hlen) cs hrest hb2)

theorem utf8Decode_high_char (b : Nat) (hb : 128 ≤ b) :
    ∀ l : List Nat, ∀ chars : List Nat, utf8Decode l = some chars →
      b ∈ l → ∃ c ∈ chars, 128 ≤ c := by
  suffices hn : ∀ n : Nat, ∀ l : List Nat, l.length ≤ n →
      ∀ chars : List Nat, utf8Decode l = some chars → b ∈ l →
        ∃ c ∈ chars, 128 ≤ c by
    intro l
    exact hn l.length l le_rfl
  intro n
  induction n with
  | zero =>
    intro l hlen chars _ hm
    have : l = [] := List.length_eq_zero.mp (Nat.le_zero.mp hlen)
    subst this
    simp at hm
  | succ n ih =>
    intro l hlen
    cases l with
    | nil => intro chars _ hm; simp at hm
    | cons b0 rest =>
      intro chars hdec hm
      simp only [List.length_cons, Nat.succ_le_succ_iff] at hlen
      rw [utf8Decode_cons] at hdec
      by_cases h0 : b0 ≤ 127
      · rw [if_pos h0] at hdec
        cases hrest : utf8Decode rest with
        | none => rw [hrest] at hdec; simp at hdec
        | some cs =>
          rw [hrest] at hdec
          simp only [Option.map_some' , Option.some.injEq] at hdec
          subst hdec
          rcases List.mem_cons.mp hm with rfl | hm2
          · omega
          · obtain ⟨c, hc, hc128⟩ := ih rest hlen cs hrest hm2
            exact ⟨c, List.mem_cons_of_mem b0 hc, hc128⟩
      · rw [if_neg h0] at hdec
        cases hstep : utf8Step b0 rest with
        | none => rw [hstep] at hdec; simp at hdec
        | some cr =>
          rw [hstep] at hdec
          simp only at hdec
          cases hrest : utf8Decode cr.2 with
          | none => rw [hrest] at hdec; simp at hdec
          | some cs =>
            rw [hrest] at hdec
            simp only [Option.map_some' , Option.some.injEq] at hdec
            subst hdec
            obtain ⟨hc128, _⟩ := utf8Step_facts b0 rest cr.1 cr.2 (by rw [hstep])
            exact ⟨cr.1, List.mem_cons_self cr.1 cs, hc128⟩

theorem get_u32_error_of_bad_byte (bytes : List Nat)
    (hbad : ∃ b ∈ bytes, ¬ (isHexDigitByte b ∨ b = 43)) :
    ∃ e, BlockHeader.get_u32 bytes = .error e := by
  obtain ⟨b, hbmem, hbbad⟩ := hbad
  unfold BlockHeader.get_u32
  cases hdec : utf8Decode bytes with
  | none => exact ⟨.utf8Error, rfl⟩
  | some chars =>
    cases hparse : fromStrRadix16 chars with
    | error e => exact ⟨e, hparse⟩
    | ok v =>
      exfalso
      have hall := fromStrRadix16_mem chars v hparse
      by_cases hble : b ≤ 127
      · have hbin := utf8Decode_mem_ascii b hble bytes chars hdec hbmem
        exact hbbad (hall b hbin)
      · obtain ⟨c, hcmem, hc128⟩ :=
          utf8Decode_high_char b (by omega) bytes chars hdec hbmem
        have := hall c hcmem
        unfold isHexDigitByte at this
        omega

/-- C3: BlockHeader::is_correct returns true exactly when the two leading
bytes are CR LF, the three separators are the space byte, and the two
trailing bytes are CR LF; the three 8-byte hex fields never influence the
result, and corrupting any single one of the seven framing bytes makes it
false. -/
theorem claim_C3_is_correct_framing :
    (∀ h : BlockHeader, h.is_correct = true ↔
      (h.eol_0d = 13 ∧ h.eol_0a = 10 ∧ h.space1 = 32 ∧ h.space2 = 32 ∧
       h.space3 = 32 ∧ h.eol2_0d = 13 ∧ h.eol2_0a = 10)) ∧
    (∀ h : BlockHeader, ∀ d p n : List Nat,
      ({ h with
          data_size_hex := d
          page_size_hex := p
          next_page_addr_hex := n } : BlockHeader).is_correct = h.is_correct) ∧
    (∀ h : BlockHeader, h.is_correct = true →
      (∀ x, x ≠ 13 → ({ h with eol_0d := x } : BlockHeader).is_correct = false) ∧
      (∀ x, x ≠ 10 → ({ h with eol_0a := x } : BlockHeader).is_correct = false) ∧
      (∀ x, x ≠ 32 → ({ h with space1 := x } : BlockHeader).is_correct = false) ∧
      (∀ x, x ≠ 32 → ({ h with space2 := x } : BlockHeader).is_correct = false) ∧
      (∀ x, x ≠ 32 → ({ h with space3 := x } : BlockHeader).is_correct = false) ∧
      (∀ x, x ≠ 13 → ({ h with eol2_0d := x } : BlockHeader).is_correct = false) ∧
      (∀ x, x ≠ 10 → ({ h with eol2_0a := x } : BlockHeader).is_correct = false)) := by
  refine ⟨?_, ?_, ?_⟩
  · intro h
    simp only [BlockHeader.is_correct, Bool.and_eq_true, beq_iff_eq]
    tauto
  · intro h d p n
    simp [BlockHeader.is_correct]
  · intro h hc
    simp only [BlockHeader.is_correct, Bool.and_eq_true, beq_iff_eq] at hc
    refine ⟨?_, ?_, ?_, ?_, ?_, ?_, ?_⟩ <;>
      intro x hx <;> simp [BlockHeader.is_correct, hc, hx]

/-- Witness for C3 at a concrete header: the default header is correct and
flipping its first framing byte to 0 makes it incorrect. -/
theorem claim_C3_witness :
    ({ BlockHeader.dflt with eol_0d := 0 } : BlockHeader).is_correct = false :=
  (claim_C3_is_correct_framing.2.2 BlockHeader.dflt (by decide)).1 0 (by decide)

/-- C5: a byte buffer is classified as a nested container exactly when a
16-byte RootHeader prefix decodes and the 31-byte BlockHeader immediately
after it decodes and satisfies is_correct; buffers that are too short or
framed wrongly are opaque leaves. -/
theorem claim_C5_is_v8file_iff (data : List Nat) :
    is_v8file data = true ↔
      ∃ fh bh,
        FileHeader.from_raw_parts ⟨data, 0⟩ = .ok fh ∧
        BlockHeader.from_raw_parts fh.2 = .ok bh ∧
        bh.1.is_correct = true := by
  constructor
  · intro h
    unfold is_v8file at h
    cases h1 : FileHeader.from_raw_parts ⟨data, 0⟩ with
    | error e => rw [h1] at h; simp at h
    | ok fh =>
      rw [h1] at h
      simp only at h
      cases h2 : BlockHeader.from_raw_parts fh.2 with
      | error e => rw [h2] at h; simp at h
      | ok bh =>
        rw [h2] at h
        simp only at h
        exact ⟨fh, bh, rfl, h2, h⟩
  · rintro ⟨fh, bh, h1, h2, h3⟩
    unfold is_v8file
    rw [h1]
    simp only
    rw [h2]
    exact h3

/-- Witness for C5 at a concrete 47-byte buffer made of a root header and a
canonical block header. -/
theorem claim_C5_witness : is_v8file sampleEmptyContainer = true :=
  (claim_C5_is_v8file_iff _).mpr
    ⟨(FileHeader.new V8_MAGIC_NUMBER 512 0, ⟨sampleEmptyContainer, 16⟩),
     (BlockHeader.new 0 0 V8_MAGIC_NUMBER, ⟨sampleEmptyContainer, 47⟩),
     by decide, by decide, by decide⟩

/-- Counterexample to C7 as stated: a data_size field of eight z bytes is
not valid hex, and get_data_size returns a propagated ParseIntError, not
the value 0. -/
theorem claim_C7_counterexample :
    ({ BlockHeader.dflt with data_size_hex := List.replicate 8 122 } :
        BlockHeader).get_data_size = .error .parseIntError ∧
    ({ BlockHeader.dflt with data_size_hex := List.replicate 8 122 } :
        BlockHeader).get_data_size ≠ .ok 0 := by
  constructor <;> decide

/-- C7 amended: decoding a BlockHeader hex field that contains a byte which
is neither an ASCII hex digit nor the plus sign returns a propagated error
(Utf8Error or ParseIntError) from each of the three getters; it never
silently falls back to 0. -/
theorem claim_C7_amended (h : BlockHeader) :
    ((∃ b ∈ h.data_size_hex, ¬ (isHexDigitByte b ∨ b = 43)) →
      ∃ e, h.get_data_size = .error e) ∧
    ((∃ b ∈ h.page_size_hex, ¬ (isHexDigitByte b ∨ b = 43)) →
      ∃ e, h.get_page_size = .error e) ∧
    ((∃ b ∈ h.next_page_addr_hex, ¬ (isHexDigitByte b ∨ b = 43)) →
      ∃ e, h.get_next_page_addr = .error e) :=
  ⟨fun hbad => get_u32_error_of_bad_byte h.data_size_hex hbad,
   fun hbad => get_u32_error_of_bad_byte h.page_size_hex hbad,
   fun hbad => get_u32_error_of_bad_byte h.next_page_addr_hex hbad⟩

/-- Witness for C7 amended: the all-z field is rejected through the general
theorem. -/
theorem claim_C7_witness :
    ∃ e, ({ BlockHeader.dflt with data_size_hex := List.replicate 8 122 } :
        BlockHeader).get_data_size = .error e :=
  (claim_C7_amended _).1 ⟨122, by decide, by decide⟩

/-- C8 refuted by the code (code_bug): the length guard in save_block_data
constructs an io::Error but never returns it, so a payload of 2^32 bytes is
not rejected; the block is written with its data_size hex field silently
truncated to 0 while the full payload follows, corrupting the layout. -/
theorem claim_C8_truncation :
    saveBlockData (List.replicate 4294967296 7) V8_DEFAULT_PAGE_SIZE =
      (BlockHeader.new 0 512 V8_MAGIC_NUMBER).into_bytes ++
        List.replicate 4294967296 7 ++ List.replicate 512 0 := by
  simp only [saveBlockData, List.length_replicate]
  have h0 : u32mod 4294967296 = 0 := by norm_num [u32mod]
  rw [h0]
  have hif : (if V8_DEFAULT_PAGE_SIZE < 0 then 0 else V8_DEFAULT_PAGE_SIZE) =
      (512 : Nat) := by norm_num [V8_DEFAULT_PAGE_SIZE]
  rw [hif, Nat.sub_zero]

theorem mem_convert (v b : Nat) (hb : b ∈ convert v) :
    ∃ x, x < 16 ∧ b = hexDigit x := by
  rw [convert_eq_map] at hb
  simp only [List.mem_map] at hb
  obtain ⟨x, hx, rfl⟩ := hb
  refine ⟨x, ?_, rfl⟩
  simp only [List.mem_cons, List.not_mem_nil, or_false] at hx
  rcases hx with h | h | h | h | h | h | h | h <;> subst h <;> omega

theorem hexDigit_lower (x : Nat) (hx : x < 16) :
    (48 ≤ hexDigit x ∧ hexDigit x ≤ 57) ∨
      (97 ≤ hexDigit x ∧ hexDigit x ≤ 102) := by
  unfold hexDigit
  split <;> omega

theorem hexDigit_mod256 (x : Nat) :
    hexDigit (x % 16) % 256 = hexDigit (x % 16) :=
  Nat.mod_eq_of_lt (hexDigit_lt_256 _ (Nat.mod_lt _ (by norm_num)))

/-- C10: for u32 values d, p, n, BlockHeader::new produces a correct
header; its into_bytes output is exactly 31 bytes with canonical framing
and 8 lower-case hex digits per field; decoding those bytes with
from_raw_parts returns the same header, and the three getters recover d, p
and n. -/
theorem claim_C10_new_roundtrip (d p n : Nat) (hd : d < 4294967296)
    (hp : p < 4294967296) (hn : n < 4294967296) :
    (BlockHeader.new d p n).is_correct = true ∧
    (BlockHeader.new d p n).into_bytes.length = 31 ∧
    (BlockHeader.new d p n).into_bytes =
      13 :: 10 :: (convert d ++ 32 :: (convert p ++ 32 ::
        (convert n ++ [32, 13, 10]))) ∧
    (∀ b ∈ convert d ++ convert p ++ convert n,
      (48 ≤ b ∧ b ≤ 57) ∨ (97 ≤ b ∧ b ≤ 102)) ∧
    BlockHeader.from_raw_parts ⟨(BlockHeader.new d p n).into_bytes, 0⟩ =
      .ok (BlockHeader.new d p n,
        ⟨(BlockHeader.new d p n).into_bytes, 31⟩) ∧
    (BlockHeader.new d p n).get_data_size = .ok d ∧
    (BlockHeader.new d p n).get_page_size = .ok p ∧
    (BlockHeader.new d p n).get_next_page_addr = .ok n := by
  refine ⟨rfl, rfl, rfl, ?_, ?_, get_u32_convert d hd, get_u32_convert p hp,
    get_u32_convert n hn⟩
  · intro b hb
    rcases List.mem_append.mp hb with hb2 | hb3
    · rcases List.mem_append.mp hb2 with hb4 | hb4 <;>
        · obtain ⟨x, hx, rfl⟩ := mem_convert _ b hb4
          exact hexDigit_lower x hx
    · obtain ⟨x, hx, rfl⟩ := mem_convert _ b hb3
      exact hexDigit_lower x hx
  · simp only [BlockHeader.from_raw_parts, takeRead, BlockHeader.into_bytes,
      BlockHeader.new, BlockHeader.dflt, convert, List.drop_zero,
      List.append_eq, List.cons_append, List.nil_append, List.take_cons,
      List.map_cons, List.map_nil, hexDigit_mod256]
    norm_num [hexDigit_mod256]

/-- Witness for C10 at d = 1000, p = 512, n = the magic sentinel. -/
theorem claim_C10_witness :
    (BlockHeader.new 1000 512 2147483647).is_correct = true ∧
    (BlockHeader.new 1000 512 2147483647).get_data_size = .ok 1000 ∧
    (BlockHeader.new 1000 512 2147483647).get_next_page_addr =
      .ok 2147483647 := by
  have h := claim_C10_new_roundtrip 1000 512 2147483647 (by norm_num)
    (by norm_num) (by norm_num)
  exact ⟨h.1, h.2.2.2.2.2.1, h.2.2.2.2.2.2.2⟩

theorem ebind_ok {α β : Type} (a : α) (f : α → Except V8Error β) :
    (Except.ok a >>= f) = f a := rfl

theorem ebind_err {α β : Type} (e : V8Error) (f : α → Except V8Error β) :
    ((Except.error e : Except V8Error α) >>= f) = .error e := rfl

theorem takeRead_length (n : Nat) (s : Src) :
    (takeRead n s).1.length = min n (s.data.length - s.pos) := by
  simp [takeRead]

theorem readBlockDataLoop_length_le :
    ∀ fuel : Nat, ∀ s : Src, ∀ hdr : BlockHeader, ∀ dataSize readIn : Nat,
      ∀ acc : List Nat, ∀ res : List Nat × Src,
      acc.length = readIn → readIn ≤ dataSize →
      readBlockDataLoop fuel s hdr dataSize readIn acc = .ok res →
      res.1.length ≤ dataSize := by
  intro fuel
  induction fuel with
  | zero =>
    intro s hdr dataSize readIn acc res hacc hle h
    rw [readBlockDataLoop] at h
    by_cases hlt : readIn < dataSize
    · rw [if_pos hlt] at h
      simp at h
    · rw [if_neg hlt] at h
      simp only [Except.ok.injEq] at h
      subst h
      simp [hacc, hle]
  | succ f ih =>
    intro s hdr dataSize readIn acc res hacc hle h
    rw [readBlockDataLoop] at h
    by_cases hlt : readIn < dataSize
    · rw [if_pos hlt] at h
      simp only at h
      cases hps : hdr.get_page_size with
      | error e => rw [hps, ebind_err] at h; simp at h
      | ok pageSize =>
        rw [hps, ebind_ok] at h
        cases hnp : hdr.get_next_page_addr with
        | error e => rw [hnp, ebind_err] at h; simp at h
        | ok nextPageAddr =>
          rw [hnp, ebind_ok] at h
          set bytesToRead := min pageSize (dataSize - readIn) with hbtr
          by_cases hshort :
              (takeRead bytesToRead s).1.length < bytesToRead
          · rw [if_pos hshort] at h
            simp at h
          · rw [if_neg hshort] at h
            have hblen : (takeRead bytesToRead s).1.length = bytesToRead := by
              have := takeRead_length bytesToRead s
              omega
            by_cases hmagic : nextPageAddr ≠ V8_MAGIC_NUMBER
            · rw [if_pos hmagic] at h
              cases hbh : BlockHeader.from_raw_parts
                  ⟨(takeRead bytesToRead s).2.data, nextPageAddr⟩ with
              | error e => rw [hbh, ebind_err] at h; simp at h
              | ok h2 =>
                rw [hbh, ebind_ok] at h
                exact ih h2.2 h2.1 dataSize (readIn + bytesToRead)
                  (acc ++ (takeRead bytesToRead s).1) res
                  (by simp [hacc, hblen])
                  (by omega) h
            · rw [if_neg hmagic] at h
              simp only [Except.ok.injEq] at h
              subst h
              simp only [List.length_append, hacc, hblen]
              omega
    · rw [if_neg hlt] at h
      simp only [Except.ok.injEq] at h
      subst h
      simp [hacc, hle]

/-- Counterexample to C2 as stated: the starting header declares data_size
2 but page_size 1 with the magic sentinel as next page, and read_block_data
returns Ok with a single byte - fewer than data_size, with no error. -/
theorem claim_C2_counterexample :
    (BlockHeader.new 2 1 V8_MAGIC_NUMBER).get_data_size = .ok 2 ∧
    readBlockData 5 ⟨[7, 8, 9], 0⟩ (BlockHeader.new 2 1 V8_MAGIC_NUMBER) =
      .ok ([7], ⟨[7, 8, 9], 1⟩) := by
  constructor <;> decide

set_option maxRecDepth 100000 in
/-- C2 amended: read_block_data returns at most data_size bytes, reading
min(page_size, remaining) per page; a first page with fewer available bytes
than requested fails with the ShortRead-style io error; when the chain ends
at the magic sentinel while bytes remain it returns only the accumulated
bytes (see the counterexample), and on the 3-page chain of capacity 512
with data_size 1000 it returns exactly 1000 bytes, not 1536. -/
theorem claim_C2_amended :
    (∀ fuel : Nat, ∀ s : Src, ∀ hdr : BlockHeader, ∀ d : Nat,
      ∀ res : List Nat × Src,
      hdr.get_data_size = .ok d →
      readBlockData fuel s hdr = .ok res → res.1.length ≤ d) ∧
    (∀ fuel : Nat, ∀ s : Src, ∀ hdr : BlockHeader, ∀ d p nx : Nat,
      hdr.get_data_size = .ok d → hdr.get_page_size = .ok p →
      hdr.get_next_page_addr = .ok nx → 0 < d → 0 < fuel →
      s.data.length - s.pos < min p d →
      readBlockData fuel s hdr = .error .ioError) ∧
    (readBlockData 5 ⟨threePageData, 0⟩ threePageHdr).map
      (fun r => r.1.length) = .ok 1000 := by
  refine ⟨?_, ?_, by decide⟩
  · intro fuel s hdr d res hd h
    unfold readBlockData at h
    rw [hd, ebind_ok] at h
    exact readBlockDataLoop_length_le fuel s hdr d 0 [] res rfl
      (Nat.zero_le d) h
  · intro fuel s hdr d p nx hd hp hnx hdpos hfuel hav
    unfold readBlockData
    rw [hd, ebind_ok]
    cases fuel with
    | zero => omega
    | succ f =>
      rw [readBlockDataLoop]
      rw [if_pos (by omega : 0 < d)]
      rw [hp, ebind_ok, hnx, ebind_ok]
      have hlen : (takeRead (min p (d - 0)) s).1.length < min p (d - 0) := by
        rw [takeRead_length]
        omega
      rw [if_pos hlen]

/-- Witness for the universally quantified parts of the amended C2: the
bounded-length part applied to the counterexample chain, and the ShortRead
part applied to a source with a single available byte. -/
theorem claim_C2_witness :
    ([7] : List Nat).length ≤ 2 ∧
    readBlockData 3 ⟨[7], 0⟩ (BlockHeader.new 5 9 V8_MAGIC_NUMBER) =
      .error .ioError :=
  ⟨claim_C2_amended.1 5 ⟨[7, 8, 9], 0⟩ (BlockHeader.new 2 1 V8_MAGIC_NUMBER)
      2 ([7], ⟨[7, 8, 9], 1⟩) (by decide) (by decide),
   claim_C2_amended.2.1 3 ⟨[7], 0⟩ (BlockHeader.new 5 9 V8_MAGIC_NUMBER)
      5 9 V8_MAGIC_NUMBER (by decide) (by decide) (by decide) (by decide)
      (by decide) (by decide)⟩

theorem readElemsAddrsLoop_cons (c rest : List Nat) (hc : c.length = 12) :
    readElemsAddrsLoop (c ++ rest) =
      (readElemsAddrsLoop rest).map
        (⟨u32le (c.take 4), u32le ((c.drop 4).take 4),
          u32le ((c.drop 8).take 4)⟩ :: ·) := by
  rw [readElemsAddrsLoop_eq]
  have hne : (c ++ rest).isEmpty = false := by
    cases c with
    | nil => simp at hc
    | cons x xs => rfl
  rw [hne]
  simp only [Bool.false_eq_true, if_false]
  have hlen : ¬ (c ++ rest).length < 12 := by
    simp
    omega
  rw [if_neg hlen]
  have hdrop : (c ++ rest).drop 12 = rest := by
    rw [← hc]
    exact List.drop_left c rest
  have ht4 : (c ++ rest).take 4 = c.take 4 :=
    List.take_append_of_le_length (by omega)
  have hd4 : ((c ++ rest).drop 4).take 4 = (c.drop 4).take 4 := by
    rw [List.drop_append_of_le_length (by omega)]
    exact List.take_append_of_le_length (by simp; omega)
  have hd8 : ((c ++ rest).drop 8).take 4 = (c.drop 8).take 4 := by
    rw [List.drop_append_of_le_length (by omega)]
    exact List.take_append_of_le_length (by simp; omega)
  rw [hdrop, ht4, hd4, hd8]
  cases readElemsAddrsLoop rest with
  | error e => rfl
  | ok addrs => rfl

theorem readElemsAddrsLoop_length :
    ∀ bs : List Nat, ∀ addrs : List ElemAddr,
      readElemsAddrsLoop bs = .ok addrs → 12 * addrs.length = bs.length := by
  suffices hn : ∀ n : Nat, ∀ bs : List Nat, bs.length ≤ n →
      ∀ addrs : List ElemAddr, readElemsAddrsLoop bs = .ok addrs →
        12 * addrs.length = bs.length by
    intro bs
    exact hn bs.length bs le_rfl
  intro n
  induction n with
  | zero =>
    intro bs hlen addrs h
    have : bs = [] := List.length_eq_zero.mp (Nat.le_zero.mp hlen)
    subst this
    rw [readElemsAddrsLoop_eq] at h
    simp only [List.isEmpty_nil, if_true] at h
    simp only [Except.ok.injEq] at h
    subst h
    rfl
  | succ n ih =>
    intro bs hlen addrs h
    rw [readElemsAddrsLoop_eq] at h
    by_cases he : bs.isEmpty
    · rw [he] at h
      simp only [if_true] at h
      simp only [Except.ok.injEq] at h
      subst h
      simp [List.isEmpty_iff_length_eq_zero.mp he]
    · simp only [he, Bool.false_eq_true, if_false] at h
      by_cases hl : bs.length < 12
      · rw [if_pos hl] at h
        simp at h
      · rw [if_neg hl] at h
        cases hrest : readElemsAddrsLoop (bs.drop 12) with
        | error e => rw [hrest, ebind_err] at h; simp at h
        | ok rest =>
          rw [hrest, ebind_ok] at h
          simp only [Except.ok.injEq] at h
          subst h
          have := ih (bs.drop 12) (by simp; omega) rest hrest
          simp only [List.length_drop] at this
          simp only [List.length_cons]
          omega

theorem unpackElemsFlat_stops (fuel : Nat) (data : List Nat) :
    ∀ good : List ElemAddr, ∀ e : ElemAddr, ∀ rest : List ElemAddr,
      (∀ a ∈ good, a.fffffff = V8_MAGIC_NUMBER) →
      e.fffffff ≠ V8_MAGIC_NUMBER →
      unpackElemsFlat fuel data (good ++ e :: rest) =
        unpackElemsFlat fuel data good := by
  intro good
  induction good with
  | nil =>
    intro e rest _ hbad
    simp only [List.nil_append]
    rw [unpackElemsFlat, unpackElemsFlat]
    rw [if_pos hbad]
  | cons a good2 ih =>
    intro e rest hgood hbad
    have ha : a.fffffff = V8_MAGIC_NUMBER :=
      hgood a (List.mem_cons_self a good2)
    have ihe := ih e rest (fun x hx => hgood x (List.mem_cons_of_mem a hx)) hbad
    simp only [List.cons_append]
    rw [unpackElemsFlat, unpackElemsFlat]
    simp only [ihe]

theorem readerElems_stops (fuel : Nat) (data : List Nat) :
    ∀ good : List ElemAddr, ∀ e : ElemAddr, ∀ rest : List ElemAddr,
      (∀ a ∈ good, a.fffffff = V8_MAGIC_NUMBER) →
      e.fffffff ≠ V8_MAGIC_NUMBER →
      readerElems fuel data (good ++ e :: rest) =
        readerElems fuel data good := by
  intro good
  induction good with
  | nil =>
    intro e rest _ hbad
    simp only [List.nil_append]
    rw [readerElems, readerElems]
    rw [if_pos hbad]
  | cons a good2 ih =>
    intro e rest hgood hbad
    have ihe := ih e rest (fun x hx => hgood x (List.mem_cons_of_mem a hx)) hbad
    simp only [List.cons_append]
    rw [readerElems, readerElems]
    simp only [ihe]

theorem loadElemsWith_stops (nested : List Nat → Except V8Error V8File)
    (fuel : Nat) (inflate : List Nat → Option (List Nat)) (data : List Nat) :
    ∀ good : List ElemAddr, ∀ e : ElemAddr, ∀ rest : List ElemAddr,
      (∀ a ∈ good, a.fffffff = V8_MAGIC_NUMBER) →
      e.fffffff ≠ V8_MAGIC_NUMBER →
      loadElemsWith nested fuel inflate data (good ++ e :: rest) =
        loadElemsWith nested fuel inflate data good := by
  intro good
  induction good with
  | nil =>
    intro e rest _ hbad
    simp only [List.nil_append]
    rw [loadElemsWith, loadElemsWith]
    rw [if_pos hbad]
  | cons a good2 ih =>
    intro e rest hgood hbad
    have ihe := ih e rest (fun x hx => hgood x (List.mem_cons_of_mem a hx)) hbad
    simp only [List.cons_append]
    rw [loadElemsWith, loadElemsWith]
    simp only [ihe]

theorem noLoadElems_stops (fuel : Nat)
    (inflate : List Nat → Option (List Nat)) (data : List Nat)
    (boolInflate : Bool) :
    ∀ good : List ElemAddr, ∀ e : ElemAddr, ∀ rest : List ElemAddr,
      (∀ a ∈ good, a.fffffff = V8_MAGIC_NUMBER) →
      e.fffffff ≠ V8_MAGIC_NUMBER →
      noLoadElems fuel inflate data boolInflate (good ++ e :: rest) =
        noLoadElems fuel inflate data boolInflate good := by
  intro good
  induction good with
  | nil =>
    intro e rest _ hbad
    simp only [List.nil_append]
    rw [noLoadElems, noLoadElems]
    rw [if_pos hbad]
  | cons a good2 ih =>
    intro e rest hgood hbad
    have ihe := ih e rest (fun x hx => hgood x (List.mem_cons_of_mem a hx)) hbad
    simp only [List.cons_append]
    rw [noLoadElems, noLoadElems]
    simp only [ihe]

/-- C4: TOC decoding consumes the whole block as consecutive fixed-size
12-byte ElemAddr records with no sentinel check (each leading 12-byte chunk
decodes to one record whatever its sentinel holds, and a successful decode
covers exactly the block length), while every consumer of the resulting
list, the element loops of unpack_to_folder, of the pipeline reader stage,
of load_file and of unpack_to_directory_no_load, stops at the first record
whose trailing field is not the magic constant, silently ignoring it and
everything after it (such as zero-filled padding records). -/
theorem claim_C4_toc_policy :
    (∀ c rest : List Nat, c.length = 12 →
      readElemsAddrsLoop (c ++ rest) =
        (readElemsAddrsLoop rest).map
          (⟨u32le (c.take 4), u32le ((c.drop 4).take 4),
            u32le ((c.drop 8).take 4)⟩ :: ·)) ∧
    (∀ bs : List Nat, ∀ addrs : List ElemAddr,
      readElemsAddrsLoop bs = .ok addrs → 12 * addrs.length = bs.length) ∧
    (∀ nested : List Nat → Except V8Error V8File, ∀ fuel : Nat,
      ∀ inflate : List Nat → Option (List Nat),
      ∀ data : List Nat, ∀ boolInflate : Bool, ∀ good : List ElemAddr,
      ∀ e : ElemAddr, ∀ rest : List ElemAddr,
      (∀ a ∈ good, a.fffffff = V8_MAGIC_NUMBER) →
      e.fffffff ≠ V8_MAGIC_NUMBER →
      unpackElemsFlat fuel data (good ++ e :: rest) =
        unpackElemsFlat fuel data good ∧
      readerElems fuel data (good ++ e :: rest) =
        readerElems fuel data good ∧
      loadElemsWith nested fuel inflate data (good ++ e :: rest) =
        loadElemsWith nested fuel inflate data good ∧
      noLoadElems fuel inflate data boolInflate (good ++ e :: rest) =
        noLoadElems fuel inflate data boolInflate good) :=
  ⟨readElemsAddrsLoop_cons, readElemsAddrsLoop_length,
   fun nested fuel inflate data boolInflate good e rest hg hb =>
     ⟨unpackElemsFlat_stops fuel data good e rest hg hb,
      readerElems_stops fuel data good e rest hg hb,
      loadElemsWith_stops nested fuel inflate data good e rest hg hb,
      noLoadElems_stops fuel inflate data boolInflate good e rest hg hb⟩⟩

/-- Witness for C4: a 24-byte zero-padded tail decodes to two records
without any sentinel check, and all four element loops ignore a zero
record and its successors. -/
theorem claim_C4_witness :
    12 * ([(⟨0, 0, 0⟩ : ElemAddr), ⟨0, 0, 0⟩].length) =
      (List.replicate 24 0).length ∧
    unpackElemsFlat 3 [] ([] ++ (⟨0, 0, 0⟩ : ElemAddr) :: [⟨1, 1, 1⟩]) =
      unpackElemsFlat 3 [] [] ∧
    loadElemsWith (fun _ => .error .noFuel) 3 (fun _ => none) []
        ([] ++ (⟨0, 0, 0⟩ : ElemAddr) :: [⟨1, 1, 1⟩]) =
      loadElemsWith (fun _ => .error .noFuel) 3 (fun _ => none) [] [] ∧
    noLoadElems 3 (fun _ => none) [] true
        ([] ++ (⟨0, 0, 0⟩ : ElemAddr) :: [⟨1, 1, 1⟩]) =
      noLoadElems 3 (fun _ => none) [] true [] :=
  ⟨claim_C4_toc_policy.2.1 (List.replicate 24 0) [⟨0, 0, 0⟩, ⟨0, 0, 0⟩]
      (by decide),
   (claim_C4_toc_policy.2.2 (fun _ => .error .noFuel) 3 (fun _ => none) []
      true [] ⟨0, 0, 0⟩ [⟨1, 1, 1⟩] (by simp) (by decide)).1,
   (claim_C4_toc_policy.2.2 (fun _ => .error .noFuel) 3 (fun _ => none) []
      true [] ⟨0, 0, 0⟩ [⟨1, 1, 1⟩] (by simp) (by decide)).2.2.1,
   (claim_C4_toc_policy.2.2 (fun _ => .error .noFuel) 3 (fun _ => none) []
      true [] ⟨0, 0, 0⟩ [⟨1, 1, 1⟩] (by simp) (by decide)).2.2.2⟩

theorem flat_pipeline_elems (fuel : Nat) (data : List Nat) :
    ∀ addrs : List ElemAddr, ∀ fs : Dir,
      unpackElemsFlat fuel data addrs = .ok fs →
      ∃ elems, readerElems fuel data addrs = .ok elems ∧
        writerElems elems = .ok fs := by
  intro addrs
  induction addrs with
  | nil =>
    intro fs h
    rw [unpackElemsFlat] at h
    simp only [Except.ok.injEq] at h
    subst h
    exact ⟨[], rfl, rfl⟩
  | cons a rest ih =>
    intro fs h
    rw [unpackElemsFlat] at h
    rw [readerElems]
    by_cases hsent : a.fffffff ≠ V8_MAGIC_NUMBER
    · rw [if_pos hsent] at h ⊢
      simp only [Except.ok.injEq] at h
      subst h
      exact ⟨[], rfl, rfl⟩
    · rw [if_neg hsent] at h ⊢
      cases hbh : BlockHeader.from_raw_parts ⟨data, a.elem_header_addr⟩ with
      | error e => rw [hbh, ebind_err] at h; simp at h
      | ok ebh =>
        rw [hbh, ebind_ok] at h
        rw [ebind_ok]
        by_cases hcor : ¬ ebh.1.is_correct
        · rw [if_pos hcor] at h
          simp at h
        · rw [if_neg hcor] at h ⊢
          cases hrd : readBlockData fuel ebh.2 ebh.1 with
          | error e => rw [hrd, ebind_err] at h; simp at h
          | ok hdrR =>
            rw [hrd, ebind_ok] at h
            rw [ebind_ok]
            cases hname : nameFromHeader hdrR.1 with
            | error e => rw [hname, ebind_err] at h; simp at h
            | ok name =>
              rw [hname, ebind_ok] at h
              by_cases hdata : a.elem_data_addr ≠ V8_MAGIC_NUMBER
              · rw [if_pos hdata] at h ⊢
                cases hdbh : BlockHeader.from_raw_parts
                    ⟨data, a.elem_data_addr⟩ with
                | error e => rw [hdbh, ebind_err] at h; simp at h
                | ok dbh =>
                  rw [hdbh, ebind_ok] at h
                  rw [ebind_ok]
                  cases hdr2 : readBlockData fuel dbh.2 dbh.1 with
                  | error e => rw [hdr2, ebind_err] at h; simp at h
                  | ok dr =>
                    rw [hdr2, ebind_ok] at h
                    rw [ebind_ok]
                    cases hrest : unpackElemsFlat fuel data rest with
                    | error e => rw [hrest, ebind_err] at h; simp at h
                    | ok restFiles =>
                      rw [hrest, ebind_ok] at h
                      simp only [Except.ok.injEq] at h
                      subst h
                      obtain ⟨elems, hre, hwr⟩ := ih restFiles hrest
                      refine ⟨V8Elem.mk hdrR.1 (some dr.1) none false :: elems,
                        ?_, ?_⟩
                      · rw [hre, ebind_ok]
                      · rw [writerElems]
                        have : (V8Elem.mk hdrR.1 (some dr.1) none
                            false).get_name = .ok name := hname
                        rw [this, ebind_ok]
                        simp only [V8Elem.data, V8Elem.header]
                        rw [hwr, ebind_ok]
              · rw [if_neg hdata] at h ⊢
                cases hrest : unpackElemsFlat fuel data rest with
                | error e => rw [hrest, ebind_err] at h; simp at h
                | ok restFiles =>
                  rw [hrest, ebind_ok] at h
                  simp only [Except.ok.injEq] at h
                  subst h
                  obtain ⟨elems, hre, hwr⟩ := ih restFiles hrest
                  refine ⟨V8Elem.mk hdrR.1 none none false :: elems, ?_, ?_⟩
                  · rw [hre, ebind_ok]
                  · rw [writerElems]
                    have : (V8Elem.mk hdrR.1 none none
                        false).get_name = .ok name := hname
                    rw [this, ebind_ok]
                    simp only [V8Elem.data, V8Elem.header]
                    rw [hwr, ebind_ok]

/-- C6: whenever the sequential flat unpack succeeds on a container, the
pipelined flat unpack succeeds and writes exactly the same files with the
same contents in the same order (TOC order). -/
theorem claim_C6_pipeline_equivalence (fuel : Nat) (data : List Nat)
    (files : Dir) (h : unpackToFolder fuel data = .ok (true, files)) :
    unpackPipeline fuel data = .ok (true, files) := by
  unfold unpackToFolder at h
  by_cases hv : is_v8file data
  · rw [if_neg (by simp [hv])] at h
    cases hfh : get_file_header data with
    | error e => rw [hfh, ebind_err] at h; simp at h
    | ok fh =>
      rw [hfh, ebind_ok] at h
      cases hfbh : get_first_block_header data with
      | error e => rw [hfbh, ebind_err] at h; simp at h
      | ok fbh =>
        rw [hfbh, ebind_ok] at h
        cases hr : readElemsAddrs fuel fbh.2 fbh.1 with
        | error e => rw [hr, ebind_err] at h; simp at h
        | ok r =>
          rw [hr, ebind_ok] at h
          cases hfs : unpackElemsFlat fuel data r.1 with
          | error e => rw [hfs, ebind_err] at h; simp at h
          | ok fs =>
            rw [hfs, ebind_ok] at h
            simp only [Except.ok.injEq, Prod.mk.injEq, true_and] at h
            obtain ⟨elems, hre, hwr⟩ := flat_pipeline_elems fuel data r.1 fs hfs
            unfold unpackPipeline readContent
            rw [if_neg (by simp [hv])]
            rw [hfh, ebind_ok, hfbh, ebind_ok, hr, ebind_ok, ebind_ok,
              hre, ebind_ok, hwr, ebind_ok]
            rw [← h]
  · rw [if_pos (by simp [hv])] at h
    simp at h

/-- Witness for C6: the pipeline reproduces the sequential output on the
concrete empty container. -/
theorem claim_C6_witness :
    unpackPipeline 1 sampleEmptyContainer =
      .ok (true, [(fileHeaderName,
        (FileHeader.new V8_MAGIC_NUMBER 512 0).into_bytes)]) :=
  claim_C6_pipeline_equivalence 1 sampleEmptyContainer
    [(fileHeaderName, (FileHeader.new V8_MAGIC_NUMBER 512 0).into_bytes)]
    (by decide)

/-- C9: on a buffer that is not a valid container, is_v8file is false and
both sequential unpack operations return Ok(false) without writing any
file; the embedded operations are total functions, so no input can make
them panic. -/
theorem claim_C9_invalid_no_output (fuel : Nat)
    (inflate : List Nat → Option (List Nat)) (data : List Nat)
    (b1 b2 : Bool) (h : is_v8file data = false) :
    unpackToDirectoryNoLoad fuel inflate data b1 b2 = .ok (false, []) ∧
    unpackToFolder fuel data = .ok (false, []) := by
  constructor
  · unfold unpackToDirectoryNoLoad
    rw [if_pos (by simp [h])]
  · unfold unpackToFolder
    rw [if_pos (by simp [h])]

/-- Witness for C9 on the concrete single-byte non-container file. -/
theorem claim_C9_witness :
    unpackToDirectoryNoLoad 3 (fun _ => none) [0] true true =
      .ok (false, []) ∧
    unpackToFolder 3 [0] = .ok (false, []) :=
  claim_C9_invalid_no_output 3 (fun _ => none) [0] true true (by decide)

theorem map_mod256_id (l : List Nat) (h : ∀ b ∈ l, b < 256) :
    l.map (· % 256) = l := by
  induction l with
  | nil => rfl
  | cons x xs ih =>
    simp only [List.map_cons]
    rw [Nat.mod_eq_of_lt (h x (List.mem_cons_self x xs)),
      ih (fun b hb => h b (List.mem_cons_of_mem x hb))]

theorem u32leBytes_length (v : Nat) : (u32leBytes v).length = 4 := rfl

theorem u32leBytes_lt256 (v : Nat) : ∀ b ∈ u32leBytes v, b < 256 := by
  intro b hb
  simp only [u32leBytes, List.mem_cons, List.not_mem_nil, or_false] at hb
  rcases hb with h | h | h | h <;> subst h <;> omega

theorem u32le_u32leBytes (v : Nat) (hv : v < 4294967296) :
    u32le (u32leBytes v) = v := by
  simp only [u32le, u32leBytes, List.getD_cons_zero, List.getD_cons_succ]
  omega

theorem fileHeader_into_bytes_length (fh : FileHeader) :
    fh.into_bytes.length = 16 := rfl

theorem fileHeader_into_bytes_lt256 (fh : FileHeader) :
    ∀ b ∈ fh.into_bytes, b < 256 := by
  intro b hb
  unfold FileHeader.into_bytes at hb
  rcases List.mem_append.mp hb with h2 | h2
  · rcases List.mem_append.mp h2 with h3 | h3
    · rcases List.mem_append.mp h3 with h4 | h4
      · exact u32leBytes_lt256 _ b h4
      · exact u32leBytes_lt256 _ b h4
    · exact u32leBytes_lt256 _ b h3
  · exact u32leBytes_lt256 _ b h2

theorem convert_lt256 (v : Nat) : ∀ b ∈ convert v, b < 256 := by
  intro b hb
  obtain ⟨x, hx, rfl⟩ := mem_convert v b hb
  exact hexDigit_lt_256 x hx

theorem blockHeader_new_into_bytes_length (a b c : Nat) :
    (BlockHeader.new a b c).into_bytes.length = 31 := rfl

theorem blockHeader_new_into_bytes_lt256 (a b c : Nat) :
    ∀ x ∈ (BlockHeader.new a b c).into_bytes, x < 256 := by
  intro x hx
  rw [show (BlockHeader.new a b c).into_bytes =
    13 :: 10 :: (convert a ++ 32 :: (convert b ++ 32 ::
      (convert c ++ [32, 13, 10]))) from rfl] at hx
  simp only [List.mem_cons, List.mem_append, List.not_mem_nil, or_false] at hx
  rcases hx with rfl | rfl | hx | rfl | hx | rfl | hx | rfl | rfl | rfl <;>
    first
    | omega
    | exact convert_lt256 _ x hx

theorem fromStrRadix16Go_lt (ds : List Nat) :
    ∀ acc v : Nat, acc < 4294967296 → fromStrRadix16Go ds acc = .ok v →
      v < 4294967296 := by
  induction ds with
  | nil =>
    intro acc v hacc h
    rw [fromStrRadix16Go] at h
    simp only [Except.ok.injEq] at h
    omega
  | cons c cs ih =>
    intro acc v hacc h
    rw [fromStrRadix16Go] at h
    cases hd : toDigit16 c with
    | none => simp only [hd] at h; simp at h
    | some d =>
      simp only [hd] at h
      by_cases hlt : acc * 16 + d < 4294967296
      · rw [if_pos hlt] at h
        exact ih (acc * 16 + d) v hlt h
      · rw [if_neg hlt] at h
        simp at h

theorem get_u32_lt (bytes : List Nat) (v : Nat)
    (h : BlockHeader.get_u32 bytes = .ok v) : v < 4294967296 := by
  unfold BlockHeader.get_u32 at h
  cases hd : utf8Decode bytes with
  | none => rw [hd] at h; simp at h
  | some chars =>
    rw [hd] at h
    simp only at h
    cases chars with
    | nil => rw [fromStrRadix16] at h; simp at h
    | cons c cs =>
      by_cases h43 : c = 43
      · subst h43
        rw [fromStrRadix16_cons43] at h
        cases cs with
        | nil => simp at h
        | cons c1 cs2 => exact fromStrRadix16Go_lt _ 0 v (by norm_num) h
      · rw [fromStrRadix16_cons_ne43 c cs h43] at h
        exact fromStrRadix16Go_lt _ 0 v (by norm_num) h

theorem takeRead_lt256 (n : Nat) (s : Src) :
    ∀ b ∈ (takeRead n s).1, b < 256 := by
  intro b hb
  simp only [takeRead, List.mem_map] at hb
  obtain ⟨x, _, rfl⟩ := hb
  omega

theorem readBlockDataLoop_lt256 :
    ∀ fuel : Nat, ∀ s : Src, ∀ hdr : BlockHeader, ∀ dataSize readIn : Nat,
      ∀ acc : List Nat, ∀ res : List Nat × Src,
      (∀ b ∈ acc, b < 256) →
      readBlockDataLoop fuel s hdr dataSize readIn acc = .ok res →
      ∀ b ∈ res.1, b < 256 := by
  intro fuel
  induction fuel with
  | zero =>
    intro s hdr dataSize readIn acc res hacc h
    rw [readBlockDataLoop] at h
    by_cases hlt : readIn < dataSize
    · rw [if_pos hlt] at h
      simp at h
    · rw [if_neg hlt] at h
      simp only [Except.ok.injEq] at h
      subst h
      exact hacc
  | succ f ih =>
    intro s hdr dataSize readIn acc res hacc h
    rw [readBlockDataLoop] at h
    by_cases hlt : readIn < dataSize
    · rw [if_pos hlt] at h
      simp only at h
      cases hps : hdr.get_page_size with
      | error e => rw [hps, ebind_err] at h; simp at h
      | ok pageSize =>
        rw [hps, ebind_ok] at h
        cases hnp : hdr.get_next_page_addr with
        | error e => rw [hnp, ebind_err] at h; simp at h
        | ok nextPageAddr =>
          rw [hnp, ebind_ok] at h
          set bytesToRead := min pageSize (dataSize - readIn) with hbtr
          by_cases hshort : (takeRead bytesToRead s).1.length < bytesToRead
          · rw [if_pos hshort] at h
            simp at h
          · rw [if_neg hshort] at h
            have hcat : ∀ b ∈ acc ++ (takeRead bytesToRead s).1, b < 256 := by
              intro b hb
              rcases List.mem_append.mp hb with hb2 | hb2
              · exact hacc b hb2
              · exact takeRead_lt256 bytesToRead s b hb2
            by_cases hmagic : nextPageAddr ≠ V8_MAGIC_NUMBER
            · rw [if_pos hmagic] at h
              cases hbh : BlockHeader.from_raw_parts
                  ⟨(takeRead bytesToRead s).2.data, nextPageAddr⟩ with
              | error e => rw [hbh, ebind_err] at h; simp at h
              | ok h2 =>
                rw [hbh, ebind_ok] at h
                exact ih h2.2 h2.1 dataSize (readIn + bytesToRead)
                  (acc ++ (takeRead bytesToRead s).1) res hcat h
            · rw [if_neg hmagic] at h
              simp only [Except.ok.injEq] at h
              subst h
              exact hcat
    · rw [if_neg hlt] at h
      simp only [Except.ok.injEq] at h
      subst h
      exact hacc

theorem readBlockData_length_lt (fuel : Nat) (s : Src) (hdr : BlockHeader)
    (res : List Nat × Src) (h : readBlockData fuel s hdr = .ok res) :
    res.1.length < 4294967296 := by
  unfold readBlockData at h
  cases hd : hdr.get_data_size with
  | error e => rw [hd, ebind_err] at h; simp at h
  | ok d =>
    rw [hd, ebind_ok] at h
    have h1 := readBlockDataLoop_length_le fuel s hdr d 0 [] res rfl
      (Nat.zero_le d) h
    have h2 := get_u32_lt hdr.data_size_hex d hd
    omega

theorem readBlockData_lt256 (fuel : Nat) (s : Src) (hdr : BlockHeader)
    (res : List Nat × Src) (h : readBlockData fuel s hdr = .ok res) :
    ∀ b ∈ res.1, b < 256 := by
  unfold readBlockData at h
  cases hd : hdr.get_data_size with
  | error e => rw [hd, ebind_err] at h; simp at h
  | ok d =>
    rw [hd, ebind_ok] at h
    exact readBlockDataLoop_lt256 fuel s hdr d 0 [] res (by simp) h

theorem readBlockData_fuel_zero (s : Src) (hdr : BlockHeader)
    (res : List Nat × Src) (h : readBlockData 0 s hdr = .ok res) :
    res.1 = [] := by
  unfold readBlockData at h
  cases hd : hdr.get_data_size with
  | error e => rw [hd, ebind_err] at h; simp at h
  | ok d =>
    rw [hd, ebind_ok] at h
    rw [readBlockDataLoop] at h
    by_cases hlt : 0 < d
    · rw [if_pos hlt] at h
      simp at h
    · rw [if_neg hlt] at h
      simp only [Except.ok.injEq] at h
      subst h
      rfl

theorem from_raw_parts_of_suffix (s : Src) (a b c : Nat)
    (h : (s.data.drop s.pos).take 31 = (BlockHeader.new a b c).into_bytes) :
    BlockHeader.from_raw_parts s =
      .ok (BlockHeader.new a b c, ⟨s.data, s.pos + 31⟩) := by
  unfold BlockHeader.from_raw_parts takeRead
  simp only [h, map_mod256_id _ (blockHeader_new_into_bytes_lt256 a b c)]
  rw [show (BlockHeader.new a b c).into_bytes =
    13 :: 10 :: (convert a ++ 32 :: (convert b ++ 32 ::
      (convert c ++ [32, 13, 10]))) from rfl]
  rw [convert_eq_map, convert_eq_map, convert_eq_map]
  simp only [List.map_cons, List.map_nil, List.cons_append, List.nil_append]
  norm_num [BlockHeader.new, BlockHeader.dflt, convert_eq_map]

theorem fileHeader_from_raw_parts_of_prefix (fh : FileHeader)
    (rest : List Nat) :
    FileHeader.from_raw_parts ⟨fh.into_bytes ++ rest, 0⟩ =
      .ok (⟨u32mod fh.next_page_addr, u32mod fh.page_size,
            u32mod fh.storage_ver, u32mod fh.reserved⟩,
        ⟨fh.into_bytes ++ rest, 16⟩) := by
  unfold FileHeader.from_raw_parts takeRead
  have htake : ((fh.into_bytes ++ rest).drop 0).take 16 = fh.into_bytes := by
    rw [List.drop_zero]
    rw [← fileHeader_into_bytes_length fh]
    exact List.take_left fh.into_bytes rest
  simp only [htake, map_mod256_id _ (fileHeader_into_bytes_lt256 fh)]
  rw [show fh.into_bytes = u32leBytes fh.next_page_addr ++
    (u32leBytes fh.page_size ++ (u32leBytes fh.storage_ver ++
      u32leBytes fh.reserved)) from by simp [FileHeader.into_bytes]]
  simp only [u32leBytes, List.cons_append, List.nil_append]
  norm_num [u32le, u32mod]
  constructor
  · omega
  · constructor
    · omega
    · constructor
      · omega
      · omega

theorem u32leBytes_u32mod (v : Nat) : u32leBytes (u32mod v) = u32leBytes v := by
  simp only [u32leBytes, u32mod]
  norm_num
  constructor
  · omega
  · constructor
    · omega
    · omega

theorem readBlockData_single (fuel : Nat) (s : Src) (len page : Nat)
    (payload tail : List Nat)
    (hlenp : payload.length = len) (hlen32 : len < 4294967296)
    (hpage32 : page < 4294967296) (hlenpage : len ≤ page)
    (hbytes : ∀ b ∈ payload, b < 256)
    (hdrop : s.data.drop s.pos = payload ++ tail)
    (hfuel : 0 < len → 0 < fuel) :
    readBlockData fuel s (BlockHeader.new len page V8_MAGIC_NUMBER) =
      .ok (payload, ⟨s.data, s.pos + len⟩) := by
  unfold readBlockData
  rw [show (BlockHeader.new len page V8_MAGIC_NUMBER).get_data_size =
    BlockHeader.get_u32 (convert len) from rfl]
  rw [get_u32_convert len hlen32, ebind_ok]
  by_cases hzero : 0 < len
  · cases fuel with
    | zero => omega
    | succ f =>
      rw [readBlockDataLoop]
      rw [if_pos hzero]
      rw [show (BlockHeader.new len page V8_MAGIC_NUMBER).get_page_size =
        BlockHeader.get_u32 (convert page) from rfl]
      rw [get_u32_convert page hpage32, ebind_ok]
      rw [show (BlockHeader.new len page V8_MAGIC_NUMBER).get_next_page_addr =
        BlockHeader.get_u32 (convert V8_MAGIC_NUMBER) from rfl]
      rw [get_u32_convert V8_MAGIC_NUMBER (by norm_num [V8_MAGIC_NUMBER]),
        ebind_ok]
      have hmin : min page (len - 0) = len := by omega
      rw [hmin]
      have htake : (takeRead len s).1 = payload := by
        simp only [takeRead, hdrop]
        rw [List.take_append_of_le_length (by omega)]
        rw [show payload.take len = payload from by
          rw [← hlenp]; exact List.take_length payload]
        exact map_mod256_id payload hbytes
      have hshort : ¬ (takeRead len s).1.length < len := by
        rw [htake, hlenp]
        omega
      rw [if_neg hshort]
      rw [if_neg (by simp)]
      have hsnd : (takeRead len s).2 =
          ⟨s.data, s.pos + (takeRead len s).1.length⟩ := rfl
      rw [hsnd, htake, hlenp]
      simp
  · have hl0 : len = 0 := by omega
    subst hl0
    have hp0 : payload = [] := List.length_eq_zero.mp hlenp
    subst hp0
    cases fuel with
    | zero =>
      rw [readBlockDataLoop]
      rw [if_neg (by omega)]
      cases s with
      | mk sd sp => simp
    | succ f =>
      rw [readBlockDataLoop]
      rw [if_neg (by omega)]
      cases s with
      | mk sd sp => simp

theorem elemAddr_into_bytes_length (a : ElemAddr) : a.into_bytes.length = 12 := rfl

theorem readElemsAddrsLoop_flatMap (addrs : List ElemAddr)
    (hb : ∀ a ∈ addrs, a.elem_header_addr < 4294967296 ∧
      a.elem_data_addr < 4294967296 ∧ a.fffffff < 4294967296) :
    readElemsAddrsLoop (addrs.flatMap ElemAddr.into_bytes) = .ok addrs := by
  induction addrs with
  | nil =>
    rw [readElemsAddrsLoop_eq]
    simp
  | cons a rest ih =>
    obtain ⟨h1, h2, h3⟩ := hb a (List.mem_cons_self a rest)
    simp only [List.flatMap_cons]
    rw [readElemsAddrsLoop_cons a.into_bytes (rest.flatMap ElemAddr.into_bytes)
      (elemAddr_into_bytes_length a)]
    rw [ih (fun x hx => hb x (List.mem_cons_of_mem a hx))]
    have hta : a.into_bytes.take 4 = u32leBytes a.elem_header_addr := by
      rw [show a.into_bytes = u32leBytes a.elem_header_addr ++
        (u32leBytes a.elem_data_addr ++ u32leBytes a.fffffff) from by
          simp [ElemAddr.into_bytes]]
      exact List.take_append_of_le_length (by simp [u32leBytes])
    have htb : (a.into_bytes.drop 4).take 4 = u32leBytes a.elem_data_addr := by
      rw [show a.into_bytes = u32leBytes a.elem_header_addr ++
        (u32leBytes a.elem_data_addr ++ u32leBytes a.fffffff) from by
          simp [ElemAddr.into_bytes]]
      rw [show (4 : Nat) = (u32leBytes a.elem_header_addr).length from rfl,
        List.drop_left]
      exact List.take_append_of_le_length (by simp [u32leBytes])
    have htc : (a.into_bytes.drop 8).take 4 = u32leBytes a.fffffff := by
      rw [show a.into_bytes = (u32leBytes a.elem_header_addr ++
        u32leBytes a.elem_data_addr) ++ u32leBytes a.fffffff from by
          simp [ElemAddr.into_bytes]]
      rw [show (8 : Nat) = (u32leBytes a.elem_header_addr ++
        u32leBytes a.elem_data_addr).length from rfl, List.drop_left]
      rfl
    rw [hta, htb, htc, u32le_u32leBytes _ h1, u32le_u32leBytes _ h2,
      u32le_u32leBytes _ h3]
    rfl

theorem lastDotIdxAux_append (xs : List Nat) :
    ∀ ys : List Nat, ∀ i : Nat, ∀ acc : Option Nat,
      lastDotIdxAux (xs ++ ys) i acc =
        lastDotIdxAux ys (i + xs.length) (lastDotIdxAux xs i acc) := by
  induction xs with
  | nil =>
    intro ys i acc
    simp only [List.nil_append, List.length_nil, Nat.add_zero]
    rfl
  | cons x xs2 ih =>
    intro ys i acc
    simp only [List.cons_append, lastDotIdxAux, List.append_eq]
    rw [ih ys (i + 1)]
    congr 1
    simp only [List.length_cons]
    omega

theorem lastDotIdxAux_headerSuffix (i : Nat) (acc : Option Nat) :
    lastDotIdxAux headerSuffix i acc = some i := rfl

theorem lastDotIdxAux_dataSuffix (i : Nat) (acc : Option Nat) :
    lastDotIdxAux dataSuffix i acc = some i := rfl

theorem extOf_headerSuffix (n : List Nat) (hn : n ≠ []) :
    extOf (n ++ headerSuffix) = some extHeader := by
  unfold extOf
  rw [lastDotIdxAux_append, lastDotIdxAux_headerSuffix, Nat.zero_add]
  cases hl : n.length with
  | zero => exact absurd (List.length_eq_zero.mp hl) hn
  | succ m =>
    have hdrop : (n ++ headerSuffix).drop (m + 1 + 1) = extHeader := by
      rw [show m + 1 + 1 = n.length + 1 from by omega, ← List.drop_drop,
        List.drop_left]
      rfl
    simp [hdrop]

theorem setExtData_headerSuffix (n : List Nat) (hn : n ≠ []) :
    setExtData (n ++ headerSuffix) = n ++ dataSuffix := by
  unfold setExtData
  rw [lastDotIdxAux_append, lastDotIdxAux_headerSuffix, Nat.zero_add]
  cases hl : n.length with
  | zero => exact absurd (List.length_eq_zero.mp hl) hn
  | succ m =>
    have htake : (n ++ headerSuffix).take (m + 1) = n := by
      rw [show m + 1 = n.length from by omega]
      exact List.take_left n headerSuffix
    simp [htake]

theorem extOf_dataSuffix (n : List Nat) :
    extOf (n ++ dataSuffix) ≠ some extHeader := by
  unfold extOf
  rw [lastDotIdxAux_append, lastDotIdxAux_dataSuffix, Nat.zero_add]
  cases hl : n.length with
  | zero => simp
  | succ m =>
    have hdrop : (n ++ dataSuffix).drop (m + 1 + 1) = [100, 97, 116, 97] := by
      rw [show m + 1 + 1 = n.length + 1 from by omega, ← List.drop_drop,
        List.drop_left]
      rfl
    simp only [hdrop]
    intro hcontra
    simp only [Option.some.injEq] at hcontra
    have := congrArg List.length hcontra
    simp [extHeader] at this

theorem extOf_fileHeaderName : extOf fileHeaderName = none := rfl

theorem nameFromHeader_ok_length (h : List Nat) (n : List Nat)
    (hn : nameFromHeader h = .ok n) : 20 ≤ h.length := by
  unfold nameFromHeader at hn
  by_cases hlen : h.length < 20
  · rw [if_pos hlen] at hn
    simp at hn
  · omega

theorem unpackElemsFlat_inv (fuel : Nat) (data : List Nat) :
    ∀ addrs : List ElemAddr, ∀ fs : Dir,
      unpackElemsFlat fuel data addrs = .ok fs →
      ∃ elems : List FlatElemO, fs = elems.flatMap filesO ∧
        (∀ e ∈ elems, goodElemO e) ∧ (elems = [] ∨ 1 ≤ fuel) := by
  intro addrs
  induction addrs with
  | nil =>
    intro fs h
    rw [unpackElemsFlat] at h
    simp only [Except.ok.injEq] at h
    subst h
    exact ⟨[], rfl, by simp, Or.inl rfl⟩
  | cons a rest ih =>
    intro fs h
    rw [unpackElemsFlat] at h
    by_cases hsent : a.fffffff ≠ V8_MAGIC_NUMBER
    · rw [if_pos hsent] at h
      simp only [Except.ok.injEq] at h
      subst h
      exact ⟨[], rfl, by simp, Or.inl rfl⟩
    · rw [if_neg hsent] at h
      cases hbh : BlockHeader.from_raw_parts ⟨data, a.elem_header_addr⟩ with
      | error e => rw [hbh, ebind_err] at h; simp at h
      | ok ebh =>
        rw [hbh, ebind_ok] at h
        by_cases hcor : ¬ ebh.1.is_correct
        · rw [if_pos hcor] at h
          simp at h
        · rw [if_neg hcor] at h
          cases hrd : readBlockData fuel ebh.2 ebh.1 with
          | error e => rw [hrd, ebind_err] at h; simp at h
          | ok hdrR =>
            rw [hrd, ebind_ok] at h
            cases hname : nameFromHeader hdrR.1 with
            | error e => rw [hname, ebind_err] at h; simp at h
            | ok name =>
              rw [hname, ebind_ok] at h
              have hh20 : 20 ≤ hdrR.1.length :=
                nameFromHeader_ok_length hdrR.1 name hname
              have hfuel : 1 ≤ fuel := by
                by_contra hf
                have hf0 : fuel = 0 := by omega
                subst hf0
                have := readBlockData_fuel_zero ebh.2 ebh.1 hdrR hrd
                rw [this] at hh20
                simp at hh20
              have hgood0 : nameFromHeader hdrR.1 = .ok name ∧
                  20 ≤ hdrR.1.length ∧ hdrR.1.length < 4294967296 ∧
                  (∀ b ∈ hdrR.1, b < 256) :=
                ⟨hname, hh20, readBlockData_length_lt fuel ebh.2 ebh.1 hdrR hrd,
                 readBlockData_lt256 fuel ebh.2 ebh.1 hdrR hrd⟩
              by_cases hdata : a.elem_data_addr ≠ V8_MAGIC_NUMBER
              · rw [if_pos hdata] at h
                cases hdbh : BlockHeader.from_raw_parts
                    ⟨data, a.elem_data_addr⟩ with
                | error e => rw [hdbh, ebind_err] at h; simp at h
                | ok dbh =>
                  rw [hdbh, ebind_ok] at h
                  cases hdr2 : readBlockData fuel dbh.2 dbh.1 with
                  | error e => rw [hdr2, ebind_err] at h; simp at h
                  | ok dr =>
                    rw [hdr2, ebind_ok] at h
                    cases hrest : unpackElemsFlat fuel data rest with
                    | error e => rw [hrest, ebind_err] at h; simp at h
                    | ok restFiles =>
                      rw [hrest, ebind_ok] at h
                      simp only [Except.ok.injEq] at h
                      subst h
                      obtain ⟨elems, hfs, hgood, _⟩ := ih restFiles hrest
                      refine ⟨⟨name, hdrR.1, some dr.1⟩ :: elems, ?_, ?_,
                        Or.inr hfuel⟩
                      · rw [hfs]
                        rfl
                      · intro e he
                        rcases List.mem_cons.mp he with rfl | he2
                        · exact ⟨hgood0.1, hgood0.2.1, hgood0.2.2.1,
                            hgood0.2.2.2, by
                              intro d hd
                              simp only [Option.some.injEq] at hd
                              subst hd
                              exact ⟨readBlockData_length_lt fuel dbh.2 dbh.1
                                dr hdr2,
                                readBlockData_lt256 fuel dbh.2 dbh.1 dr hdr2⟩⟩
                        · exact hgood e he2
              · rw [if_neg hdata] at h
                cases hrest : unpackElemsFlat fuel data rest with
                | error e => rw [hrest, ebind_err] at h; simp at h
                | ok restFiles =>
                  rw [hrest, ebind_ok] at h
                  simp only [Except.ok.injEq] at h
                  subst h
                  obtain ⟨elems, hfs, hgood, _⟩ := ih restFiles hrest
                  refine ⟨⟨name, hdrR.1, none⟩ :: elems, ?_, ?_, Or.inr hfuel⟩
                  · rw [hfs]
                    rfl
                  · intro e he
                    rcases List.mem_cons.mp he with rfl | he2
                    · exact ⟨hgood0.1, hgood0.2.1, hgood0.2.2.1,
                        hgood0.2.2.2, by simp⟩
                    · exact hgood e he2

theorem append_suffix_inj (n1 n2 s : List Nat) (h : n1 ++ s = n2 ++ s) :
    n1 = n2 := by
  have hlen := congrArg List.length h
  simp only [List.length_append] at hlen
  have := congrArg (List.take n1.length) h
  rw [List.take_left] at this
  rw [this, show n1.length = n2.length from by omega, List.take_left]

theorem headerSuffix_ne_dataSuffix (n1 n2 : List Nat) :
    n1 ++ headerSuffix ≠ n2 ++ dataSuffix := by
  intro h
  have h2 := congrArg List.reverse h
  rw [List.reverse_append, List.reverse_append] at h2
  rw [show headerSuffix.reverse = [114, 101, 100, 97, 101, 104, 46] from rfl,
    show dataSuffix.reverse = [97, 116, 97, 100, 46] from rfl] at h2
  simp [List.cons_append] at h2

theorem fileHeaderName_ne_headerSuffix (n : List Nat) :
    fileHeaderName ≠ n ++ headerSuffix := by
  intro h
  have h46 : (46 : Nat) ∈ n ++ headerSuffix :=
    List.mem_append.mpr (Or.inr (by decide))
  rw [← h] at h46
  exact absurd h46 (by decide)

theorem fileHeaderName_ne_dataSuffix (n : List Nat) :
    fileHeaderName ≠ n ++ dataSuffix := by
  intro h
  have h46 : (46 : Nat) ∈ n ++ dataSuffix :=
    List.mem_append.mpr (Or.inr (by decide))
  rw [← h] at h46
  exact absurd h46 (by decide)

theorem dirLookup_cons_self (k : List Nat) (v : List Nat) (d : Dir) :
    dirLookup ((k, v) :: d) k = some v := by
  simp [dirLookup, List.find?]

theorem dirLookup_cons_ne (k k2 : List Nat) (v : List Nat) (d : Dir)
    (h : k2 ≠ k) : dirLookup ((k2, v) :: d) k = dirLookup d k := by
  simp only [dirLookup, List.find?]
  rw [show (((k2, v).1 == k)) = false from by
    simp only [beq_eq_false_iff_ne]
    exact h]

theorem dirLookup_of_mem (k : List Nat) (v : List Nat) :
    ∀ d : Dir, (d.map Prod.fst).Nodup → (k, v) ∈ d →
      dirLookup d k = some v := by
  intro d
  induction d with
  | nil => intro _ hm; simp at hm
  | cons p rest ih =>
    intro hnodup hm
    rcases List.mem_cons.mp hm with rfl | hm2
    · exact dirLookup_cons_self k v rest
    · have hk : p.1 ≠ k := by
        intro hcontra
        have : k ∈ rest.map Prod.fst :=
          List.mem_map.mpr ⟨(k, v), hm2, rfl⟩
        rw [List.map_cons] at hnodup
        rw [hcontra] at hnodup
        exact (List.nodup_cons.mp hnodup).1 this
      cases p with
      | mk pk pv =>
        rw [dirLookup_cons_ne k pk pv rest hk]
        exact ih (by
          rw [List.map_cons] at hnodup
          exact (List.nodup_cons.mp hnodup).2) hm2

theorem dirLookup_eq_none (k : List Nat) :
    ∀ d : Dir, k ∉ d.map Prod.fst → dirLookup d k = none := by
  intro d
  induction d with
  | nil => intro _; rfl
  | cons p rest ih =>
    intro hnm
    cases p with
    | mk pk pv =>
      rw [List.map_cons] at hnm
      have hne : pk ≠ k := fun hc => hnm (by rw [hc]; exact List.mem_cons_self _ _)
      rw [dirLookup_cons_ne k pk pv rest hne]
      exact ih (fun hc => hnm (List.mem_cons_of_mem _ hc))

theorem saveBlockData_eq (d : List Nat) (p : Nat)
    (hd : d.length < 4294967296) :
    saveBlockData d p =
      (BlockHeader.new d.length (max d.length p) V8_MAGIC_NUMBER).into_bytes ++
        d ++ List.replicate (max d.length p - d.length) 0 := by
  have hmax : (if p < d.length then d.length else p) = max d.length p := by
    rcases Nat.lt_or_ge p d.length with h | h
    · rw [if_pos h, Nat.max_eq_left (by omega)]
    · rw [if_neg (by omega), Nat.max_eq_right h]
  show (BlockHeader.new (u32mod d.length)
      (if p < u32mod d.length then u32mod d.length else p)
      V8_MAGIC_NUMBER).into_bytes ++ d ++
    List.replicate
      ((if p < u32mod d.length then u32mod d.length else p) -
        u32mod d.length) 0 = _
  rw [show u32mod d.length = d.length from Nat.mod_eq_of_lt hd, hmax]

theorem saveBlockData_length (d : List Nat) (p : Nat)
    (hd : d.length < 4294967296) :
    (saveBlockData d p).length = 31 + max d.length p := by
  rw [saveBlockData_eq d p hd]
  simp only [List.length_append, blockHeader_new_into_bytes_length,
    List.length_replicate]
  omega

theorem saveBlockData_length_ge (d : List Nat) (p : Nat) :
    31 + d.length ≤ (saveBlockData d p).length := by
  unfold saveBlockData
  simp only [List.length_append, blockHeader_new_into_bytes_length,
    List.length_replicate]
  omega

theorem elemBlocks_length (e : FlatElem) (hg : goodElem e) :
    (elemBlocks e).length = 31 + e.hdr.length + 31 + max e.dat.length 512 := by
  unfold elemBlocks
  rw [List.length_append]
  rw [show u32mod e.hdr.length = e.hdr.length from
    Nat.mod_eq_of_lt hg.2.2.1]
  rw [saveBlockData_length e.hdr e.hdr.length hg.2.2.1,
    saveBlockData_length e.dat V8_DEFAULT_PAGE_SIZE hg.2.2.2.2.1]
  rw [Nat.max_self]
  simp only [V8_DEFAULT_PAGE_SIZE]
  omega

theorem saveElemAddrsGo_length (pes : List PackElementEntry) :
    ∀ cur : Nat, (saveElemAddrsGo pes cur).length = 12 * pes.length := by
  induction pes with
  | nil => intro cur; rfl
  | cons e rest ih =>
    intro cur
    rw [saveElemAddrsGo]
    simp only [List.length_append, elemAddr_into_bytes_length, ih,
      List.length_cons]
    omega

theorem saveElemAddrsGo_ideal :
    ∀ elems : List FlatElem, ∀ cur : Nat,
      (∀ e ∈ elems, goodElem e) →
      cur + (bodyOf elems).length < 4294967296 →
      saveElemAddrsGo (packEntries elems) cur =
        (idealToc elems cur).flatMap ElemAddr.into_bytes := by
  intro elems
  induction elems with
  | nil => intro cur _ _; rfl
  | cons e rest ih =>
    intro cur hg hbound
    have hge : goodElem e := hg e (List.mem_cons_self e rest)
    have hblen : (elemBlocks e).length =
        31 + e.hdr.length + 31 + max e.dat.length 512 := elemBlocks_length e hge
    have hbody : (bodyOf (e :: rest)).length =
        (elemBlocks e).length + (bodyOf rest).length := by
      unfold bodyOf
      simp
    rw [show packEntries (e :: rest) =
      (⟨e.name ++ headerSuffix, e.name ++ dataSuffix, e.hdr.length,
        e.dat.length⟩ : PackElementEntry) :: packEntries rest from rfl]
    rw [saveElemAddrsGo]
    simp only
    rw [show u32mod e.hdr.length = e.hdr.length from
      Nat.mod_eq_of_lt hge.2.2.1]
    rw [show u32mod e.dat.length = e.dat.length from
      Nat.mod_eq_of_lt hge.2.2.2.2.1]
    rw [show u32mod (cur + 31 + e.hdr.length) = cur + 31 + e.hdr.length from
      Nat.mod_eq_of_lt (by omega)]
    rw [show u32mod (cur + 31 + e.hdr.length + 31) =
      cur + 31 + e.hdr.length + 31 from Nat.mod_eq_of_lt (by omega)]
    have hmax : max (e.dat.length) V8_DEFAULT_PAGE_SIZE =
        max e.dat.length 512 := rfl
    rw [show u32mod (cur + 31 + e.hdr.length + 31 +
        max (e.dat.length) V8_DEFAULT_PAGE_SIZE) =
      cur + 31 + e.hdr.length + 31 + max e.dat.length 512 from by
        rw [hmax]
        exact Nat.mod_eq_of_lt (by omega)]
    rw [ih (cur + 31 + e.hdr.length + 31 + max e.dat.length 512)
      (fun x hx => hg x (List.mem_cons_of_mem e hx)) (by omega)]
    rfl

theorem idealToc_bounds :
    ∀ elems : List FlatElem, ∀ cur : Nat,
      (∀ e ∈ elems, goodElem e) →
      cur + (bodyOf elems).length < 4294967296 →
      ∀ a ∈ idealToc elems cur, a.elem_header_addr < 4294967296 ∧
        a.elem_data_addr < 4294967296 ∧ a.fffffff < 4294967296 := by
  intro elems
  induction elems with
  | nil => intro cur _ _ a ha; simp [idealToc] at ha
  | cons e rest ih =>
    intro cur hg hbound a ha
    have hge : goodElem e := hg e (List.mem_cons_self e rest)
    have hblen := elemBlocks_length e hge
    have hbody : (bodyOf (e :: rest)).length =
        (elemBlocks e).length + (bodyOf rest).length := by
      unfold bodyOf
      simp
    rw [idealToc] at ha
    rcases List.mem_cons.mp ha with rfl | ha2
    · refine ⟨?_, ?_, ?_⟩
      · show cur < 4294967296
        omega
      · show cur + 31 + e.hdr.length < 4294967296
        omega
      · show V8_MAGIC_NUMBER < 4294967296
        norm_num [V8_MAGIC_NUMBER]
    · exact ih (cur + 31 + e.hdr.length + 31 + max e.dat.length 512)
        (fun x hx => hg x (List.mem_cons_of_mem e hx)) (by omega) a ha2

theorem preparePackFiles_flat (dirAll : Dir) :
    ∀ elems : List FlatElem,
      (∀ e ∈ elems, dirLookup dirAll (e.name ++ dataSuffix) = some e.dat) →
      (∀ e ∈ elems, e.name ≠ []) →
      preparePackFiles dirAll (elems.flatMap filesF) = .ok (packEntries elems) := by
  intro elems
  induction elems with
  | nil => intro _ _; rfl
  | cons e rest ih =>
    intro hlk hne
    have hnee : e.name ≠ [] := hne e (List.mem_cons_self e rest)
    have hflat : (e :: rest).flatMap filesF =
        (e.name ++ headerSuffix, e.hdr) :: (e.name ++ dataSuffix, e.dat) ::
          rest.flatMap filesF := rfl
    have htail : preparePackFiles dirAll
        ((e.name ++ dataSuffix, e.dat) :: rest.flatMap filesF) =
        .ok (packEntries rest) := by
      rw [preparePackFiles, if_neg (by
        simp only [beq_iff_eq]
        exact extOf_dataSuffix e.name)]
      exact ih (fun x hx => hlk x (List.mem_cons_of_mem e hx))
        (fun x hx => hne x (List.mem_cons_of_mem e hx))
    rw [hflat, preparePackFiles, if_pos (by
      rw [extOf_headerSuffix e.name hnee]
      exact beq_self_eq_true (some extHeader)),
      setExtData_headerSuffix e.name hnee,
      hlk e (List.mem_cons_self e rest)]
    show (do
      let r ← preparePackFiles dirAll
        ((e.name ++ dataSuffix, e.dat) :: rest.flatMap filesF)
      Except.ok ((⟨e.name ++ headerSuffix, e.name ++ dataSuffix, e.hdr.length,
        e.dat.length⟩ : PackElementEntry) :: r)) = _
    rw [htail, ebind_ok]
    rfl

theorem saveData_flat (dirAll : Dir) :
    ∀ elems : List FlatElem,
      (∀ e ∈ elems, dirLookup dirAll (e.name ++ headerSuffix) = some e.hdr) →
      (∀ e ∈ elems, dirLookup dirAll (e.name ++ dataSuffix) = some e.dat) →
      saveData dirAll (packEntries elems) = .ok (bodyOf elems) := by
  intro elems
  induction elems with
  | nil => intro _ _; rfl
  | cons e rest ih =>
    intro hhk hdk
    rw [show packEntries (e :: rest) =
      (⟨e.name ++ headerSuffix, e.name ++ dataSuffix, e.hdr.length,
        e.dat.length⟩ : PackElementEntry) :: packEntries rest from rfl]
    rw [saveData]
    rw [hhk e (List.mem_cons_self e rest), hdk e (List.mem_cons_self e rest)]
    show (do
      let r ← saveData dirAll (packEntries rest)
      Except.ok (saveBlockData e.hdr (u32mod e.hdr.length) ++
        saveBlockData e.dat V8_DEFAULT_PAGE_SIZE ++ r)) = _
    rw [ih (fun x hx => hhk x (List.mem_cons_of_mem e hx))
      (fun x hx => hdk x (List.mem_cons_of_mem e hx)), ebind_ok]
    show Except.ok (saveBlockData e.hdr (u32mod e.hdr.length) ++
      saveBlockData e.dat V8_DEFAULT_PAGE_SIZE ++ bodyOf rest) = _
    unfold bodyOf
    rw [List.flatMap_cons]
    rw [show elemBlocks e ++ rest.flatMap elemBlocks =
      saveBlockData e.hdr (u32mod e.hdr.length) ++
        (saveBlockData e.dat V8_DEFAULT_PAGE_SIZE ++ rest.flatMap elemBlocks)
      from by rw [elemBlocks, List.append_assoc]]
    rw [List.append_assoc]

theorem blockHeader_new_is_correct (a b c : Nat) :
    (BlockHeader.new a b c).is_correct = true := rfl

theorem packFromFolder_flat (fhB : List Nat) (elems : List FlatElem)
    (hhk : ∀ e ∈ elems, dirLookup ((fileHeaderName, fhB) :: elems.flatMap filesF)
      (e.name ++ headerSuffix) = some e.hdr)
    (hdk : ∀ e ∈ elems, dirLookup ((fileHeaderName, fhB) :: elems.flatMap filesF)
      (e.name ++ dataSuffix) = some e.dat)
    (hne : ∀ e ∈ elems, e.name ≠ []) :
    packFromFolder ((fileHeaderName, fhB) :: elems.flatMap filesF) =
      .ok (fhB ++ saveElemAddrs (packEntries elems) ++ bodyOf elems) := by
  unfold packFromFolder
  rw [dirLookup_cons_self]
  have hprep : preparePackFiles ((fileHeaderName, fhB) :: elems.flatMap filesF)
      ((fileHeaderName, fhB) :: elems.flatMap filesF) = .ok (packEntries elems) := by
    rw [preparePackFiles, if_neg (by
      simp only [beq_iff_eq]
      rw [extOf_fileHeaderName]
      simp)]
    exact preparePackFiles_flat _ elems hdk hne
  rw [hprep]
  show (do
    let packElems ← Except.ok (packEntries elems)
    let body ← saveData ((fileHeaderName, fhB) :: elems.flatMap filesF)
      packElems
    Except.ok (fhB ++ saveElemAddrs packElems ++ body)) = _
  rw [ebind_ok, saveData_flat _ elems hhk hdk, ebind_ok]

theorem flatMap_filesO_toF :
    ∀ l : List FlatElemO, (∀ e ∈ l, e.dat.isSome) →
      l.flatMap filesO = (l.map toF).flatMap filesF := by
  intro l
  induction l with
  | nil => intro _; rfl
  | cons e rest ih =>
    intro hall
    have hs := hall e (List.mem_cons_self e rest)
    cases hd : e.dat with
    | none => rw [hd] at hs; simp at hs
    | some d =>
      rw [List.flatMap_cons, List.map_cons, List.flatMap_cons,
        ih (fun x hx => hall x (List.mem_cons_of_mem e hx))]
      rw [show filesO e = filesF (toF e) from by
        unfold filesO filesF toF
        rw [hd]
        rfl]

theorem fileHeader_into_bytes_mod (a b c d : Nat) :
    (⟨u32mod a, u32mod b, u32mod c, u32mod d⟩ : FileHeader).into_bytes =
      (⟨a, b, c, d⟩ : FileHeader).into_bytes := by
  unfold FileHeader.into_bytes
  simp only
  rw [u32leBytes_u32mod, u32leBytes_u32mod, u32leBytes_u32mod, u32leBytes_u32mod]

theorem elemAddr_into_bytes_lt256 (a : ElemAddr) :
    ∀ b ∈ a.into_bytes, b < 256 := by
  intro b hb
  unfold ElemAddr.into_bytes at hb
  rcases List.mem_append.mp hb with h2 | h2
  · rcases List.mem_append.mp h2 with h3 | h3
    · exact u32leBytes_lt256 _ b h3
    · exact u32leBytes_lt256 _ b h3
  · exact u32leBytes_lt256 _ b h2

theorem preparePackFiles_ok_lookup (dir : Dir) :
    ∀ l : List (List Nat × List Nat), ∀ pes : List PackElementEntry,
      preparePackFiles dir l = .ok pes →
      ∀ p ∈ l, extOf p.1 = some extHeader →
        ∃ c, dirLookup dir (setExtData p.1) = some c := by
  intro l
  induction l with
  | nil => intro pes _ p hp; simp at hp
  | cons q rest ih =>
    intro pes h p hp hext
    cases q with
    | mk qn qc =>
      rw [preparePackFiles] at h
      by_cases hq : extOf qn == some extHeader
      · rw [if_pos hq] at h
        cases hlk : dirLookup dir (setExtData qn) with
        | none => rw [hlk] at h; simp at h
        | some dc =>
          rw [hlk] at h
          rcases List.mem_cons.mp hp with rfl | hp2
          · exact ⟨dc, hlk⟩
          · simp only at h
            cases hrest : preparePackFiles dir rest with
            | error e => rw [hrest, ebind_err] at h; simp at h
            | ok r => exact ih r hrest p hp2 hext
      · rw [if_neg hq] at h
        rcases List.mem_cons.mp hp with rfl | hp2
        · rw [hext] at hq
          simp at hq
        · exact ih pes h p hp2 hext

theorem mem_filesO_names (l : List FlatElemO) (x : List Nat)
    (hx : x ∈ (l.flatMap filesO).map Prod.fst) :
    ∃ m ∈ l, x = m.name ++ headerSuffix ∨
      (m.dat.isSome ∧ x = m.name ++ dataSuffix) := by
  rw [List.map_flatMap] at hx
  obtain ⟨m, hm, hxm⟩ := List.mem_flatMap.mp hx
  refine ⟨m, hm, ?_⟩
  cases hd : m.dat with
  | none =>
    rw [show (filesO m).map Prod.fst = [m.name ++ headerSuffix] from by
      unfold filesO
      rw [hd]
      rfl] at hxm
    simp only [List.mem_singleton] at hxm
    exact Or.inl hxm
  | some d =>
    rw [show (filesO m).map Prod.fst =
      [m.name ++ headerSuffix, m.name ++ dataSuffix] from by
      unfold filesO
      rw [hd]
      rfl] at hxm
    rcases List.mem_cons.mp hxm with rfl | hxm2
    · exact Or.inl rfl
    · simp only [List.mem_singleton] at hxm2
      exact Or.inr ⟨rfl, hxm2⟩

theorem headerNames_sublist :
    ∀ l : List FlatElemO,
      (l.map fun e => e.name ++ headerSuffix).Sublist
        ((l.flatMap filesO).map Prod.fst) := by
  intro l
  induction l with
  | nil => exact List.nil_sublist _
  | cons e rest ih =>
    rw [List.map_cons, List.flatMap_cons, List.map_append]
    cases hd : e.dat with
    | none =>
      rw [show (filesO e).map Prod.fst = [e.name ++ headerSuffix] from by
        unfold filesO
        rw [hd]
        rfl]
      simp only [List.cons_append, List.nil_append]
      exact List.Sublist.cons₂ _ ih
    | some d =>
      rw [show (filesO e).map Prod.fst =
        [e.name ++ headerSuffix, e.name ++ dataSuffix] from by
        unfold filesO
        rw [hd]
        rfl]
      simp only [List.cons_append, List.nil_append]
      exact List.Sublist.cons₂ _ (List.Sublist.cons _ ih)

theorem namesO_nodup (l : List FlatElemO)
    (h : ((l.flatMap filesO).map Prod.fst).Nodup) :
    (l.map (fun e => e.name)).Nodup := by
  have h2 : (l.map fun e => e.name ++ headerSuffix).Nodup :=
    h.sublist (headerNames_sublist l)
  have h3 : ((l.map fun e => e.name).map (· ++ headerSuffix)).Nodup := by
    rw [List.map_map]
    exact h2
  exact h3.of_map

theorem mem_headerName (l : List FlatElemO) (e : FlatElemO) (he : e ∈ l) :
    (e.name ++ headerSuffix) ∈ (l.flatMap filesO).map Prod.fst := by
  rw [List.map_flatMap]
  refine List.mem_flatMap.mpr ⟨e, he, ?_⟩
  cases hd : e.dat with
  | none =>
    rw [show (filesO e).map Prod.fst = [e.name ++ headerSuffix] from by
      unfold filesO
      rw [hd]
      rfl]
    simp
  | some d =>
    rw [show (filesO e).map Prod.fst =
      [e.name ++ headerSuffix, e.name ++ dataSuffix] from by
      unfold filesO
      rw [hd]
      rfl]
    simp

theorem pack_ok_all_some (fhB : List Nat) (elemsO : List FlatElemO)
    (B : List Nat)
    (hnodup : ((((fileHeaderName, fhB) :: elemsO.flatMap filesO)).map
      Prod.fst).Nodup)
    (hnoext : headerSuffix ∉ (((fileHeaderName, fhB) ::
      elemsO.flatMap filesO)).map Prod.fst)
    (hpack : packFromFolder ((fileHeaderName, fhB) :: elemsO.flatMap filesO) =
      .ok B) :
    ∀ e ∈ elemsO, e.dat.isSome := by
  intro e0 he0
  by_contra hds
  have hdn : e0.dat = none := by
    cases hdd : e0.dat with
    | none => rfl
    | some d => rw [hdd] at hds; simp at hds
  have hne0 : e0.name ≠ [] := by
    intro hnil
    apply hnoext
    rw [List.map_cons]
    refine List.mem_cons_of_mem _ ?_
    have := mem_headerName elemsO e0 he0
    rw [hnil] at this
    exact this
  unfold packFromFolder at hpack
  rw [dirLookup_cons_self] at hpack
  have hpack2 : (do
      let packElems ← preparePackFiles
        ((fileHeaderName, fhB) :: elemsO.flatMap filesO)
        ((fileHeaderName, fhB) :: elemsO.flatMap filesO)
      let body ← saveData ((fileHeaderName, fhB) :: elemsO.flatMap filesO)
        packElems
      Except.ok (fhB ++ saveElemAddrs packElems ++ body)) = .ok B := hpack
  cases hprep : preparePackFiles ((fileHeaderName, fhB) :: elemsO.flatMap filesO)
      ((fileHeaderName, fhB) :: elemsO.flatMap filesO) with
  | error e => rw [hprep, ebind_err] at hpack2; simp at hpack2
  | ok pes =>
    obtain ⟨c, hc⟩ := preparePackFiles_ok_lookup
      ((fileHeaderName, fhB) :: elemsO.flatMap filesO)
      ((fileHeaderName, fhB) :: elemsO.flatMap filesO) pes hprep
      (e0.name ++ headerSuffix, e0.hdr)
      (List.mem_cons_of_mem _ (by
        rw [List.mem_flatMap]
        refine ⟨e0, he0, ?_⟩
        rw [show filesO e0 = [(e0.name ++ headerSuffix, e0.hdr)] from by
          unfold filesO
          rw [hdn]]
        simp))
      (extOf_headerSuffix e0.name hne0)
    have hc2 : dirLookup ((fileHeaderName, fhB) :: elemsO.flatMap filesO)
        (setExtData (e0.name ++ headerSuffix)) = some c := hc
    rw [setExtData_headerSuffix e0.name hne0] at hc2
    have hnone : dirLookup ((fileHeaderName, fhB) :: elemsO.flatMap filesO)
        (e0.name ++ dataSuffix) = none := by
      apply dirLookup_eq_none
      intro hmem
      rw [List.map_cons] at hmem
      rcases List.mem_cons.mp hmem with heq | hmem2
      · exact fileHeaderName_ne_dataSuffix e0.name heq.symm
      · obtain ⟨m, hm, hcase⟩ := mem_filesO_names elemsO _ hmem2
        rcases hcase with hcase1 | ⟨hms, hcase2⟩
        · exact headerSuffix_ne_dataSuffix m.name e0.name hcase1.symm
        · have hnm : e0.name = m.name := append_suffix_inj _ _ _ hcase2
          have hnn : (elemsO.map (fun e => e.name)).Nodup := by
            apply namesO_nodup
            rw [List.map_cons] at hnodup
            exact (List.nodup_cons.mp hnodup).2
          have hem : e0 = m :=
            List.inj_on_of_nodup_map hnn he0 hm (by rw [hnm])
          rw [← hem] at hms
          rw [hdn] at hms
          simp at hms
    rw [hnone] at hc2
    simp at hc2

theorem unpackToFolder_ok_inv (fuel : Nat) (data : List Nat) (dir : Dir)
    (h : unpackToFolder fuel data = .ok (true, dir)) :
    ∃ fh : FileHeader, ∃ elems : List FlatElemO,
      dir = (fileHeaderName, fh.into_bytes) :: elems.flatMap filesO ∧
      (∀ e ∈ elems, goodElemO e) ∧ (elems = [] ∨ 1 ≤ fuel) := by
  unfold unpackToFolder at h
  by_cases hv : is_v8file data
  · rw [if_neg (by simp [hv])] at h
    cases hfh : get_file_header data with
    | error e => rw [hfh, ebind_err] at h; simp at h
    | ok fh =>
      rw [hfh, ebind_ok] at h
      cases hfbh : get_first_block_header data with
      | error e => rw [hfbh, ebind_err] at h; simp at h
      | ok fbh =>
        rw [hfbh, ebind_ok] at h
        cases hr : readElemsAddrs fuel fbh.2 fbh.1 with
        | error e => rw [hr, ebind_err] at h; simp at h
        | ok r =>
          rw [hr, ebind_ok] at h
          cases hfs : unpackElemsFlat fuel data r.1 with
          | error e => rw [hfs, ebind_err] at h; simp at h
          | ok fs =>
            rw [hfs, ebind_ok] at h
            simp only [Except.ok.injEq, Prod.mk.injEq, true_and] at h
            obtain ⟨elems, hre, hgood, hfuel⟩ :=
              unpackElemsFlat_inv fuel data r.1 fs hfs
            exact ⟨fh.1, elems, by rw [← h, hre], hgood, hfuel⟩
  · rw [if_pos (by simp [hv])] at h
    simp at h

theorem unpackElemsFlat_cons_magic (fuel : Nat) (data : List Nat)
    (ha hd : Nat) (rest : List ElemAddr) :
    unpackElemsFlat fuel data (⟨ha, hd, V8_MAGIC_NUMBER⟩ :: rest) =
      (do
        let ebh ← BlockHeader.from_raw_parts ⟨data, ha⟩
        if ¬ ebh.1.is_correct then .error (.notV8File ha)
        else do
          let hdrR ← readBlockData fuel ebh.2 ebh.1
          let name ← nameFromHeader hdrR.1
          if hd ≠ V8_MAGIC_NUMBER then do
            let dbh ← BlockHeader.from_raw_parts ⟨data, hd⟩
            let dr ← readBlockData fuel dbh.2 dbh.1
            let restFiles ← unpackElemsFlat fuel data rest
            .ok ((name ++ headerSuffix, hdrR.1) ::
              (name ++ dataSuffix, dr.1) :: restFiles)
          else do
            let restFiles ← unpackElemsFlat fuel data rest
            .ok ((name ++ headerSuffix, hdrR.1) :: restFiles)) := by
  rw [unpackElemsFlat]
  rw [if_neg (by simp)]

theorem unpack_canonical_elems (fuel : Nat) (B : List Nat)
    (hmag : B.length < V8_MAGIC_NUMBER) :
    ∀ elems : List FlatElem, ∀ cur : Nat,
      (∀ e ∈ elems, goodElem e) →
      B.drop cur = bodyOf elems →
      cur + (bodyOf elems).length = B.length →
      (elems = [] ∨ 1 ≤ fuel) →
      unpackElemsFlat fuel B (idealToc elems cur) =
        .ok (elems.flatMap filesF) := by
  intro elems
  induction elems with
  | nil => intro cur _ _ _ _; rfl
  | cons e rest ih =>
    intro cur hg hdrop hcnt hf
    have hfuel : 1 ≤ fuel := by
      rcases hf with hnil | hfuel
      · simp at hnil
      · exact hfuel
    have hge : goodElem e := hg e (List.mem_cons_self e rest)
    obtain ⟨hname, h20, hh32, hhbytes, hd32, hdbytes⟩ := hge
    have hblen : (elemBlocks e).length =
        31 + e.hdr.length + 31 + max e.dat.length 512 :=
      elemBlocks_length e ⟨hname, h20, hh32, hhbytes, hd32, hdbytes⟩
    have hmx : 512 ≤ max e.dat.length 512 := le_max_right _ _
    have hmxd : e.dat.length ≤ max e.dat.length 512 := le_max_left _ _
    have hbody : (bodyOf (e :: rest)).length =
        (elemBlocks e).length + (bodyOf rest).length := by
      unfold bodyOf
      simp
    have hEBh : saveBlockData e.hdr (u32mod e.hdr.length) =
        (BlockHeader.new e.hdr.length e.hdr.length
          V8_MAGIC_NUMBER).into_bytes ++ e.hdr := by
      rw [show u32mod e.hdr.length = e.hdr.length from Nat.mod_eq_of_lt hh32]
      rw [saveBlockData_eq e.hdr e.hdr.length hh32, Nat.max_self]
      simp
    have hEBd : saveBlockData e.dat V8_DEFAULT_PAGE_SIZE =
        (BlockHeader.new e.dat.length (max e.dat.length 512)
            V8_MAGIC_NUMBER).into_bytes ++
          (e.dat ++ List.replicate (max e.dat.length 512 - e.dat.length) 0) := by
      rw [saveBlockData_eq e.dat V8_DEFAULT_PAGE_SIZE hd32]
      rw [show (max e.dat.length V8_DEFAULT_PAGE_SIZE) =
        max e.dat.length 512 from rfl]
      rw [List.append_assoc]
    have hsplit : bodyOf (e :: rest) =
        saveBlockData e.hdr (u32mod e.hdr.length) ++
          (saveBlockData e.dat V8_DEFAULT_PAGE_SIZE ++ bodyOf rest) := by
      unfold bodyOf elemBlocks
      rw [List.flatMap_cons, List.append_assoc]
    have hdropcur : B.drop cur =
        (BlockHeader.new e.hdr.length e.hdr.length
          V8_MAGIC_NUMBER).into_bytes ++
          (e.hdr ++ (saveBlockData e.dat V8_DEFAULT_PAGE_SIZE ++
            bodyOf rest)) := by
      rw [hdrop, hsplit, hEBh, List.append_assoc]
    have htake31 : (B.drop cur).take 31 =
        (BlockHeader.new e.hdr.length e.hdr.length
          V8_MAGIC_NUMBER).into_bytes := by
      rw [hdropcur]
      exact List.take_left' (blockHeader_new_into_bytes_length _ _ _)
    have hfrp1 : BlockHeader.from_raw_parts ⟨B, cur⟩ =
        .ok (BlockHeader.new e.hdr.length e.hdr.length V8_MAGIC_NUMBER,
          ⟨B, cur + 31⟩) :=
      from_raw_parts_of_suffix ⟨B, cur⟩ e.hdr.length e.hdr.length
        V8_MAGIC_NUMBER htake31
    have hdrop31 : B.drop (cur + 31) = e.hdr ++
        (saveBlockData e.dat V8_DEFAULT_PAGE_SIZE ++ bodyOf rest) := by
      have h1 : B.drop (cur + 31) = (B.drop cur).drop 31 := by
        rw [List.drop_drop]
      rw [h1, hdropcur]
      exact List.drop_left' (blockHeader_new_into_bytes_length _ _ _)
    have hrd1 : readBlockData fuel ⟨B, cur + 31⟩
        (BlockHeader.new e.hdr.length e.hdr.length V8_MAGIC_NUMBER) =
        .ok (e.hdr, ⟨B, cur + 31 + e.hdr.length⟩) :=
      readBlockData_single fuel ⟨B, cur + 31⟩ e.hdr.length e.hdr.length e.hdr
        (saveBlockData e.dat V8_DEFAULT_PAGE_SIZE ++ bodyOf rest) rfl hh32
        hh32 le_rfl hhbytes hdrop31 (fun _ => hfuel)
    have hcur2 : cur + 31 + e.hdr.length + 31 + max e.dat.length 512 +
        (bodyOf rest).length = B.length := by omega
    have hdne : cur + 31 + e.hdr.length ≠ V8_MAGIC_NUMBER := by
      have hlt : cur + 31 + e.hdr.length < B.length := by omega
      omega
    have hdropD : B.drop (cur + 31 + e.hdr.length) =
        (BlockHeader.new e.dat.length (max e.dat.length 512)
          V8_MAGIC_NUMBER).into_bytes ++
          ((e.dat ++ List.replicate (max e.dat.length 512 - e.dat.length) 0) ++
            bodyOf rest) := by
      have h1 : B.drop (cur + 31 + e.hdr.length) =
          (B.drop (cur + 31)).drop e.hdr.length := by
        rw [List.drop_drop]
      rw [h1, hdrop31, List.drop_left, hEBd, List.append_assoc]
    have htakeD : (B.drop (cur + 31 + e.hdr.length)).take 31 =
        (BlockHeader.new e.dat.length (max e.dat.length 512)
          V8_MAGIC_NUMBER).into_bytes := by
      rw [hdropD]
      exact List.take_left' (blockHeader_new_into_bytes_length _ _ _)
    have hfrp2 : BlockHeader.from_raw_parts ⟨B, cur + 31 + e.hdr.length⟩ =
        .ok (BlockHeader.new e.dat.length (max e.dat.length 512)
            V8_MAGIC_NUMBER,
          ⟨B, cur + 31 + e.hdr.length + 31⟩) :=
      from_raw_parts_of_suffix ⟨B, cur + 31 + e.hdr.length⟩ e.dat.length
        (max e.dat.length 512) V8_MAGIC_NUMBER htakeD
    have hdropD2 : B.drop (cur + 31 + e.hdr.length + 31) =
        e.dat ++ (List.replicate (max e.dat.length 512 - e.dat.length) 0 ++
          bodyOf rest) := by
      have h1 : B.drop (cur + 31 + e.hdr.length + 31) =
          (B.drop (cur + 31 + e.hdr.length)).drop 31 := by
        rw [List.drop_drop]
      rw [h1, hdropD,
        List.drop_left' (blockHeader_new_into_bytes_length _ _ _),
        List.append_assoc]
    have hpage32 : max e.dat.length 512 < 4294967296 :=
      Nat.max_lt.mpr ⟨hd32, by norm_num⟩
    have hrd2 : readBlockData fuel ⟨B, cur + 31 + e.hdr.length + 31⟩
        (BlockHeader.new e.dat.length (max e.dat.length 512)
          V8_MAGIC_NUMBER) =
        .ok (e.dat, ⟨B, cur + 31 + e.hdr.length + 31 + e.dat.length⟩) :=
      readBlockData_single fuel ⟨B, cur + 31 + e.hdr.length + 31⟩
        e.dat.length (max e.dat.length 512) e.dat
        (List.replicate (max e.dat.length 512 - e.dat.length) 0 ++
          bodyOf rest)
        rfl hd32 hpage32 hmxd hdbytes hdropD2 (fun _ => hfuel)
    have hdropR : B.drop (cur + 31 + e.hdr.length + 31 +
        max e.dat.length 512) = bodyOf rest := by
      have h1 : B.drop (cur + 31 + e.hdr.length + 31 + max e.dat.length 512) =
          (B.drop (cur + 31 + e.hdr.length + 31)).drop
            (max e.dat.length 512) := by
        rw [List.drop_drop]
      rw [h1, hdropD2, show e.dat ++
          (List.replicate (max e.dat.length 512 - e.dat.length) 0 ++
            bodyOf rest) =
          (e.dat ++ List.replicate (max e.dat.length 512 - e.dat.length) 0) ++
            bodyOf rest from (List.append_assoc _ _ _).symm]
      refine List.drop_left' ?_
      simp only [List.length_append, List.length_replicate]
      omega
    rw [show idealToc (e :: rest) cur =
      (⟨cur, cur + 31 + e.hdr.length, V8_MAGIC_NUMBER⟩ : ElemAddr) ::
        idealToc rest (cur + 31 + e.hdr.length + 31 + max e.dat.length 512)
      from rfl]
    rw [unpackElemsFlat_cons_magic]
    rw [hfrp1, ebind_ok]
    rw [if_neg (by simp [blockHeader_new_is_correct])]
    show (do
      let hdrR ← readBlockData fuel (⟨B, cur + 31⟩ : Src)
        (BlockHeader.new e.hdr.length e.hdr.length V8_MAGIC_NUMBER)
      let name ← nameFromHeader hdrR.1
      if cur + 31 + e.hdr.length ≠ V8_MAGIC_NUMBER then do
        let dbh ← BlockHeader.from_raw_parts ⟨B, cur + 31 + e.hdr.length⟩
        let dr ← readBlockData fuel dbh.2 dbh.1
        let restFiles ← unpackElemsFlat fuel B
          (idealToc rest (cur + 31 + e.hdr.length + 31 + max e.dat.length 512))
        Except.ok ((name ++ headerSuffix, hdrR.1) ::
          (name ++ dataSuffix, dr.1) :: restFiles)
      else do
        let restFiles ← unpackElemsFlat fuel B
          (idealToc rest (cur + 31 + e.hdr.length + 31 + max e.dat.length 512))
        Except.ok ((name ++ headerSuffix, hdrR.1) :: restFiles)) = _
    rw [hrd1, ebind_ok]
    show (do
      let name ← nameFromHeader e.hdr
      if cur + 31 + e.hdr.length ≠ V8_MAGIC_NUMBER then do
        let dbh ← BlockHeader.from_raw_parts ⟨B, cur + 31 + e.hdr.length⟩
        let dr ← readBlockData fuel dbh.2 dbh.1
        let restFiles ← unpackElemsFlat fuel B
          (idealToc rest (cur + 31 + e.hdr.length + 31 + max e.dat.length 512))
        Except.ok ((name ++ headerSuffix, e.hdr) ::
          (name ++ dataSuffix, dr.1) :: restFiles)
      else do
        let restFiles ← unpackElemsFlat fuel B
          (idealToc rest (cur + 31 + e.hdr.length + 31 + max e.dat.length 512))
        Except.ok ((name ++ headerSuffix, e.hdr) :: restFiles)) = _
    rw [hname, ebind_ok]
    rw [if_pos hdne]
    rw [hfrp2, ebind_ok]
    show (do
      let dr ← readBlockData fuel (⟨B, cur + 31 + e.hdr.length + 31⟩ : Src)
        (BlockHeader.new e.dat.length (max e.dat.length 512) V8_MAGIC_NUMBER)
      let restFiles ← unpackElemsFlat fuel B
        (idealToc rest (cur + 31 + e.hdr.length + 31 + max e.dat.length 512))
      Except.ok ((e.name ++ headerSuffix, e.hdr) ::
        (e.name ++ dataSuffix, dr.1) :: restFiles)) = _
    rw [hrd2, ebind_ok]
    show (do
      let restFiles ← unpackElemsFlat fuel B
        (idealToc rest (cur + 31 + e.hdr.length + 31 + max e.dat.length 512))
      Except.ok ((e.name ++ headerSuffix, e.hdr) ::
        (e.name ++ dataSuffix, e.dat) :: restFiles)) = _
    rw [ih (cur + 31 + e.hdr.length + 31 + max e.dat.length 512)
      (fun x hx => hg x (List.mem_cons_of_mem e hx)) hdropR (by omega)
      (Or.inr hfuel), ebind_ok]
    rfl

theorem unpack_canonical (fuel : Nat) (fh : FileHeader)
    (elemsF : List FlatElem) (B : List Nat)
    (hB : B = fh.into_bytes ++ saveElemAddrs (packEntries elemsF) ++
      bodyOf elemsF)
    (hg : ∀ e ∈ elemsF, goodElem e)
    (hf : elemsF = [] ∨ 1 ≤ fuel)
    (hmag : B.length < V8_MAGIC_NUMBER) :
    unpackToFolder fuel B =
      .ok (true, (fileHeaderName, fh.into_bytes) :: elemsF.flatMap filesF) := by
  have hmaglt : V8_MAGIC_NUMBER < 4294967296 := by norm_num [V8_MAGIC_NUMBER]
  have hpes_len : (packEntries elemsF).length = elemsF.length := by
    unfold packEntries
    rw [List.length_map]
  have hlenB : B.length = 16 + (saveElemAddrs (packEntries elemsF)).length +
      (bodyOf elemsF).length := by
    rw [hB]
    simp only [List.length_append, fileHeader_into_bytes_length]
  have hsea_ge : 31 + 12 * elemsF.length ≤
      (saveElemAddrs (packEntries elemsF)).length := by
    have h2 : 31 + (saveElemAddrsGo (packEntries elemsF)
        (u32mod (16 + 31 + max (u32mod (12 * u32mod
          (packEntries elemsF).length)) V8_DEFAULT_PAGE_SIZE))).length ≤
        (saveElemAddrs (packEntries elemsF)).length :=
      saveBlockData_length_ge _ V8_DEFAULT_PAGE_SIZE
    rw [saveElemAddrsGo_length, hpes_len] at h2
    exact h2
  have h12n : 12 * elemsF.length < 4294967296 := by omega
  have hn32 : elemsF.length < 4294967296 := by omega
  have hsea_len : (saveElemAddrs (packEntries elemsF)).length =
      31 + max (12 * elemsF.length) 512 := by
    have h2 : (saveElemAddrs (packEntries elemsF)).length =
        31 + max (saveElemAddrsGo (packEntries elemsF)
          (u32mod (16 + 31 + max (u32mod (12 * u32mod
            (packEntries elemsF).length)) V8_DEFAULT_PAGE_SIZE))).length
          V8_DEFAULT_PAGE_SIZE :=
      saveBlockData_length _ V8_DEFAULT_PAGE_SIZE
        (by rw [saveElemAddrsGo_length, hpes_len]; exact h12n)
    rw [saveElemAddrsGo_length, hpes_len,
      show (V8_DEFAULT_PAGE_SIZE : Nat) = 512 from rfl] at h2
    exact h2
  have hmax47 : 47 + max (12 * elemsF.length) 512 < 4294967296 := by omega
  have hc0 : u32mod (16 + 31 + max (u32mod (12 * u32mod
      (packEntries elemsF).length)) V8_DEFAULT_PAGE_SIZE) =
      47 + max (12 * elemsF.length) 512 := by
    rw [hpes_len,
      show u32mod elemsF.length = elemsF.length from Nat.mod_eq_of_lt hn32,
      show u32mod (12 * elemsF.length) = 12 * elemsF.length from
        Nat.mod_eq_of_lt h12n,
      show (V8_DEFAULT_PAGE_SIZE : Nat) = 512 from rfl,
      show (16 + 31 : Nat) = 47 from rfl]
    exact Nat.mod_eq_of_lt hmax47
  have hSEA : saveElemAddrs (packEntries elemsF) =
      saveBlockData (saveElemAddrsGo (packEntries elemsF)
        (47 + max (12 * elemsF.length) 512)) V8_DEFAULT_PAGE_SIZE := by
    rw [show saveElemAddrs (packEntries elemsF) =
      saveBlockData (saveElemAddrsGo (packEntries elemsF)
        (u32mod (16 + 31 + max (u32mod (12 * u32mod
          (packEntries elemsF).length)) V8_DEFAULT_PAGE_SIZE)))
        V8_DEFAULT_PAGE_SIZE from rfl, hc0]
  have hlen_toc : (saveElemAddrsGo (packEntries elemsF)
      (47 + max (12 * elemsF.length) 512)).length = 12 * elemsF.length := by
    rw [saveElemAddrsGo_length, hpes_len]
  have hbound : 47 + max (12 * elemsF.length) 512 +
      (bodyOf elemsF).length < 4294967296 := by omega
  have hcnt0 : 47 + max (12 * elemsF.length) 512 +
      (bodyOf elemsF).length = B.length := by omega
  have htoc : saveElemAddrsGo (packEntries elemsF)
      (47 + max (12 * elemsF.length) 512) =
      (idealToc elemsF (47 + max (12 * elemsF.length) 512)).flatMap
        ElemAddr.into_bytes :=
    saveElemAddrsGo_ideal elemsF (47 + max (12 * elemsF.length) 512) hg hbound
  have hbytes_toc : ∀ b ∈ saveElemAddrsGo (packEntries elemsF)
      (47 + max (12 * elemsF.length) 512), b < 256 := by
    rw [htoc]
    intro b hb
    obtain ⟨a, _, hba⟩ := List.mem_flatMap.mp hb
    exact elemAddr_into_bytes_lt256 a b hba
  have hB2 : B = fh.into_bytes ++ (saveElemAddrs (packEntries elemsF) ++
      bodyOf elemsF) := by
    rw [hB, List.append_assoc]
  have hSBD : saveElemAddrs (packEntries elemsF) =
      (BlockHeader.new (12 * elemsF.length) (max (12 * elemsF.length) 512)
          V8_MAGIC_NUMBER).into_bytes ++
        (saveElemAddrsGo (packEntries elemsF)
            (47 + max (12 * elemsF.length) 512) ++
          List.replicate (max (12 * elemsF.length) 512 - 12 * elemsF.length)
            0) := by
    rw [hSEA, saveBlockData_eq _ _ (by rw [hlen_toc]; exact h12n)]
    rw [hlen_toc, show (V8_DEFAULT_PAGE_SIZE : Nat) = 512 from rfl,
      List.append_assoc]
  have hfh : FileHeader.from_raw_parts ⟨B, 0⟩ =
      .ok (⟨u32mod fh.next_page_addr, u32mod fh.page_size,
            u32mod fh.storage_ver, u32mod fh.reserved⟩, ⟨B, 16⟩) := by
    rw [hB2]
    exact fileHeader_from_raw_parts_of_prefix fh _
  have hdrop16 : B.drop 16 = saveElemAddrs (packEntries elemsF) ++
      bodyOf elemsF := by
    rw [hB2]
    exact List.drop_left' (fileHeader_into_bytes_length fh)
  have htakeT : (B.drop 16).take 31 =
      (BlockHeader.new (12 * elemsF.length) (max (12 * elemsF.length) 512)
        V8_MAGIC_NUMBER).into_bytes := by
    rw [hdrop16, hSBD, List.append_assoc]
    exact List.take_left' (blockHeader_new_into_bytes_length _ _ _)
  have hbh : BlockHeader.from_raw_parts ⟨B, 16⟩ =
      .ok (BlockHeader.new (12 * elemsF.length) (max (12 * elemsF.length) 512)
          V8_MAGIC_NUMBER, ⟨B, 47⟩) :=
    from_raw_parts_of_suffix ⟨B, 16⟩ (12 * elemsF.length)
      (max (12 * elemsF.length) 512) V8_MAGIC_NUMBER htakeT
  have hdrop47 : B.drop 47 = saveElemAddrsGo (packEntries elemsF)
      (47 + max (12 * elemsF.length) 512) ++
      (List.replicate (max (12 * elemsF.length) 512 - 12 * elemsF.length) 0 ++
        bodyOf elemsF) := by
    have h1 : B.drop 47 = (B.drop 16).drop 31 := by
      rw [List.drop_drop]
    rw [h1, hdrop16, hSBD, List.append_assoc,
      List.drop_left' (blockHeader_new_into_bytes_length _ _ _),
      List.append_assoc]
  have hmax32 : max (12 * elemsF.length) 512 < 4294967296 :=
    Nat.max_lt.mpr ⟨h12n, by norm_num⟩
  have hfuel12 : 0 < 12 * elemsF.length → 0 < fuel := by
    intro hpos
    rcases hf with hnil | hfuel
    · rw [hnil] at hpos
      simp at hpos
    · exact hfuel
  have hrb_toc : readBlockData fuel ⟨B, 47⟩
      (BlockHeader.new (12 * elemsF.length) (max (12 * elemsF.length) 512)
        V8_MAGIC_NUMBER) =
      .ok (saveElemAddrsGo (packEntries elemsF)
          (47 + max (12 * elemsF.length) 512),
        ⟨B, 47 + 12 * elemsF.length⟩) :=
    readBlockData_single fuel ⟨B, 47⟩ (12 * elemsF.length)
      (max (12 * elemsF.length) 512)
      (saveElemAddrsGo (packEntries elemsF)
        (47 + max (12 * elemsF.length) 512))
      (List.replicate (max (12 * elemsF.length) 512 - 12 * elemsF.length) 0 ++
        bodyOf elemsF)
      hlen_toc h12n hmax32 (le_max_left _ _) hbytes_toc hdrop47 hfuel12
  have hrea : readElemsAddrs fuel ⟨B, 47⟩
      (BlockHeader.new (12 * elemsF.length) (max (12 * elemsF.length) 512)
        V8_MAGIC_NUMBER) =
      .ok (idealToc elemsF (47 + max (12 * elemsF.length) 512),
        ⟨B, 47 + 12 * elemsF.length⟩) := by
    unfold readElemsAddrs
    rw [hrb_toc, ebind_ok]
    show (do
      let addrs ← readElemsAddrsLoop (saveElemAddrsGo (packEntries elemsF)
        (47 + max (12 * elemsF.length) 512))
      Except.ok (addrs, (⟨B, 47 + 12 * elemsF.length⟩ : Src))) = _
    rw [htoc, readElemsAddrsLoop_flatMap _
      (idealToc_bounds elemsF (47 + max (12 * elemsF.length) 512) hg hbound),
      ebind_ok]
  have hdropC : B.drop (47 + max (12 * elemsF.length) 512) =
      bodyOf elemsF := by
    have h1 : B.drop (47 + max (12 * elemsF.length) 512) =
        (B.drop 47).drop (max (12 * elemsF.length) 512) := by
      rw [List.drop_drop]
    rw [h1, hdrop47, show saveElemAddrsGo (packEntries elemsF)
        (47 + max (12 * elemsF.length) 512) ++
        (List.replicate (max (12 * elemsF.length) 512 - 12 * elemsF.length)
          0 ++ bodyOf elemsF) =
      (saveElemAddrsGo (packEntries elemsF)
          (47 + max (12 * elemsF.length) 512) ++
        List.replicate (max (12 * elemsF.length) 512 - 12 * elemsF.length)
          0) ++ bodyOf elemsF from (List.append_assoc _ _ _).symm]
    refine List.drop_left' ?_
    rw [List.length_append, hlen_toc, List.length_replicate]
    omega
  have huce : unpackElemsFlat fuel B
      (idealToc elemsF (47 + max (12 * elemsF.length) 512)) =
      .ok (elemsF.flatMap filesF) :=
    unpack_canonical_elems fuel B hmag elemsF
      (47 + max (12 * elemsF.length) 512) hg hdropC hcnt0 hf
  have hv : is_v8file B = true := by
    unfold is_v8file
    rw [hfh]
    show (match BlockHeader.from_raw_parts (⟨B, 16⟩ : Src) with
      | .error _ => false
      | .ok bh => bh.1.is_correct) = true
    rw [hbh]
    rfl
  unfold unpackToFolder
  rw [if_neg (by simp [hv])]
  have hgfh : get_file_header B =
      .ok (⟨u32mod fh.next_page_addr, u32mod fh.page_size,
            u32mod fh.storage_ver, u32mod fh.reserved⟩, ⟨B, 16⟩) := hfh
  have hgbh : get_first_block_header B =
      .ok (BlockHeader.new (12 * elemsF.length) (max (12 * elemsF.length) 512)
          V8_MAGIC_NUMBER, ⟨B, 47⟩) := hbh
  rw [hgfh, ebind_ok]
  show (do
    let fbh ← get_first_block_header B
    let r ← readElemsAddrs fuel fbh.2 fbh.1
    let files ← unpackElemsFlat fuel B r.1
    Except.ok (true, (fileHeaderName,
      (⟨u32mod fh.next_page_addr, u32mod fh.page_size,
        u32mod fh.storage_ver, u32mod fh.reserved⟩ :
          FileHeader).into_bytes) :: files)) = _
  rw [hgbh, ebind_ok]
  show (do
    let r ← readElemsAddrs fuel (⟨B, 47⟩ : Src)
      (BlockHeader.new (12 * elemsF.length) (max (12 * elemsF.length) 512)
        V8_MAGIC_NUMBER)
    let files ← unpackElemsFlat fuel B r.1
    Except.ok (true, (fileHeaderName,
      (⟨u32mod fh.next_page_addr, u32mod fh.page_size,
        u32mod fh.storage_ver, u32mod fh.reserved⟩ :
          FileHeader).into_bytes) :: files)) = _
  rw [hrea, ebind_ok]
  show (do
    let files ← unpackElemsFlat fuel B
      (idealToc elemsF (47 + max (12 * elemsF.length) 512))
    Except.ok (true, (fileHeaderName,
      (⟨u32mod fh.next_page_addr, u32mod fh.page_size,
        u32mod fh.storage_ver, u32mod fh.reserved⟩ :
          FileHeader).into_bytes) :: files)) = _
  rw [huce, ebind_ok]
  rw [show (⟨u32mod fh.next_page_addr, u32mod fh.page_size,
      u32mod fh.storage_ver, u32mod fh.reserved⟩ :
        FileHeader).into_bytes = fh.into_bytes from by
    rw [fileHeader_into_bytes_mod]]

/-- C1 (amended): the flat raw extraction and the folder packer are inverse
in the pack-after-unpack direction for pack_from_folder, not build_cf_file:
whenever unpack_to_folder succeeds on a container and writes a directory
with pairwise distinct file names none of which is the bare name .header,
and pack_from_folder on that directory succeeds with an output smaller than
the 0x7FFFFFFF sentinel, flat-unpacking the packed bytes reproduces exactly
the same directory, same names, contents and order. -/
theorem claim_C1_amended (fuel : Nat) (data : List Nat) (dir : Dir)
    (B : List Nat)
    (hunpack : unpackToFolder fuel data = .ok (true, dir))
    (hnodup : (dir.map Prod.fst).Nodup)
    (hnoext : headerSuffix ∉ dir.map Prod.fst)
    (hpack : packFromFolder dir = .ok B)
    (hmag : B.length < V8_MAGIC_NUMBER) :
    unpackToFolder fuel B = .ok (true, dir) := by
  obtain ⟨fh, elemsO, hdir, hgoodO, hf⟩ :=
    unpackToFolder_ok_inv fuel data dir hunpack
  subst hdir
  have hall : ∀ e ∈ elemsO, e.dat.isSome :=
    pack_ok_all_some fh.into_bytes elemsO B hnodup hnoext hpack
  have hflat : elemsO.flatMap filesO = (elemsO.map toF).flatMap filesF :=
    flatMap_filesO_toF elemsO hall
  have hne : ∀ e ∈ elemsO.map toF, e.name ≠ [] := by
    intro e he hnil
    obtain ⟨m, hm, rfl⟩ := List.mem_map.mp he
    apply hnoext
    rw [List.map_cons]
    refine List.mem_cons_of_mem _ ?_
    have hmem := mem_headerName elemsO m hm
    have hmn : m.name = [] := hnil
    rw [hmn, List.nil_append] at hmem
    exact hmem
  have hgF : ∀ e ∈ elemsO.map toF, goodElem e := by
    intro e he
    obtain ⟨m, hm, rfl⟩ := List.mem_map.mp he
    obtain ⟨h1, h2, h3, h4, h5⟩ := hgoodO m hm
    have hs := hall m hm
    cases hd : m.dat with
    | none => rw [hd] at hs; simp at hs
    | some d =>
      obtain ⟨hd32, hdb⟩ := h5 d hd
      refine ⟨h1, h2, h3, h4, ?_, ?_⟩
      · show ((m.dat).getD []).length < 4294967296
        rw [hd]
        exact hd32
      · show ∀ b ∈ (m.dat).getD [], b < 256
        rw [hd]
        exact hdb
  have hdirF : ((fileHeaderName, fh.into_bytes) :: elemsO.flatMap filesO) =
      ((fileHeaderName, fh.into_bytes) ::
        (elemsO.map toF).flatMap filesF) := by
    rw [hflat]
  rw [hdirF] at hnodup hpack ⊢
  have hhk : ∀ e ∈ elemsO.map toF, dirLookup ((fileHeaderName, fh.into_bytes)
      :: (elemsO.map toF).flatMap filesF) (e.name ++ headerSuffix) =
      some e.hdr := by
    intro e he
    apply dirLookup_of_mem _ _ _ hnodup
    refine List.mem_cons_of_mem _ (List.mem_flatMap.mpr ⟨e, he, ?_⟩)
    unfold filesF
    simp
  have hdk : ∀ e ∈ elemsO.map toF, dirLookup ((fileHeaderName, fh.into_bytes)
      :: (elemsO.map toF).flatMap filesF) (e.name ++ dataSuffix) =
      some e.dat := by
    intro e he
    apply dirLookup_of_mem _ _ _ hnodup
    refine List.mem_cons_of_mem _ (List.mem_flatMap.mpr ⟨e, he, ?_⟩)
    unfold filesF
    simp
  have hcanon := packFromFolder_flat fh.into_bytes (elemsO.map toF) hhk hdk hne
  rw [hpack] at hcanon
  have hBeq : B = fh.into_bytes ++
      saveElemAddrs (packEntries (elemsO.map toF)) ++
      bodyOf (elemsO.map toF) := by
    simp only [Except.ok.injEq] at hcanon
    exact hcanon
  have hfF : elemsO.map toF = [] ∨ 1 ≤ fuel := by
    rcases hf with h | h
    · left
      rw [h]
      rfl
    · right
      exact h
  exact unpack_canonical fuel fh (elemsO.map toF) B hBeq hgF hfF hmag

set_option maxRecDepth 1000000 in
/-- Counterexample to C1 as stated: on the valid empty container,
build_cf_file applied to the flat-unpack directory does not reproduce a
container with the same flat-unpack output; the rebuilt container carries
the FileHeader file as an ordinary element, so its flat unpack has three
files instead of one.  The pack direction that does invert the flat unpack
is pack_from_folder, per the amended C1 theorem. -/
theorem claim_C1_counterexample :
    unpackToFolder 2 sampleEmptyContainer =
      .ok (true, [(fileHeaderName,
        (FileHeader.new V8_MAGIC_NUMBER 512 0).into_bytes)]) ∧
    unpackToFolder 2 (buildCfFile (fun x => x)
        [(fileHeaderName, (FileHeader.new V8_MAGIC_NUMBER 512 0).into_bytes)]
        false) ≠
      .ok (true, [(fileHeaderName,
        (FileHeader.new V8_MAGIC_NUMBER 512 0).into_bytes)]) := by
  constructor
  · decide
  · decide

set_option maxRecDepth 1000000 in
/-- Witness for the amended C1 at a concrete container: the empty container
unpacks to the single FileHeader file, pack_from_folder of that directory
succeeds, and unpacking the packed bytes reproduces the directory. -/
theorem claim_C1_witness :
    unpackToFolder 1 ((FileHeader.new V8_MAGIC_NUMBER 512 0).into_bytes ++
        saveElemAddrs []) =
      .ok (true, [(fileHeaderName,
        (FileHeader.new V8_MAGIC_NUMBER 512 0).into_bytes)]) :=
  claim_C1_amended 1 sampleEmptyContainer
    [(fileHeaderName, (FileHeader.new V8_MAGIC_NUMBER 512 0).into_bytes)]
    ((FileHeader.new V8_MAGIC_NUMBER 512 0).into_bytes ++ saveElemAddrs [])
    (by decide) (by decide) (by decide) (by decide) (by decide)
